import Mathlib

/-!
# Verification of the Fail2Shield core functions

This file gives a shallow embedding, in Lean 4, of the pure computational
core of the Fail2Shield dashboard (files `utils.py` and
`fail2ban_manager.py`), and proves or refutes the specification claims
about it.

Modelling conventions:
* Python strings are modelled as `List Char` (with `String` wrappers at the
  API boundary where convenient).
* `ipaddress.ip_address` (CPython standard library, as used by
  `validate_ip_address`) is modelled by executable parsers that follow the
  CPython algorithm: `ipv4Val` models `IPv4Address._ip_int_from_string`
  (four dot-separated decimal octets, each 1-3 digits, no leading zero,
  value ≤ 255) and `ipv6Val` models `IPv6Address._ip_int_from_string`
  (colon-split parts, at most one `::` compression, hextets of at most 4
  hex digits, optional embedded IPv4 in the last part).  Zone/scope
  identifiers (`fe80::1%eth0`) are outside the model.  `\d`, `\w`, `\s`
  character classes are modelled over ASCII.
* Calls to `subprocess` are modelled by an oracle parameter
  (`Exec := List String → ExecOut`), and the functions additionally return
  the list of commands they issued, in order.
-/

namespace Fail2Shield

/-! ## Character classes -/

/-- ASCII decimal digit (codes 48-57), the model of the regex class `\d` and of
`str.isdigit` on the strings the code handles. -/
def isDigitCh (c : Char) : Bool := 48 ≤ c.toNat && c.toNat ≤ 57

/-- Hexadecimal digit: CPython's `_HEX_DIGITS = frozenset('0123456789ABCDEFabcdef')`. -/
def isHexCh (c : Char) : Bool :=
  isDigitCh c || (97 ≤ c.toNat && c.toNat ≤ 102) || (65 ≤ c.toNat && c.toNat ≤ 70)

/-- Word character, the model of the regex class `\w` (ASCII `[A-Za-z0-9_]`). -/
def isWordCh (c : Char) : Bool :=
  isDigitCh c || (97 ≤ c.toNat && c.toNat ≤ 122) || (65 ≤ c.toNat && c.toNat ≤ 90) || c = '_'

/-- Whitespace, the model of the regex class `\s` and of `str.strip()` (ASCII). -/
def isSpaceCh (c : Char) : Bool :=
  c = ' ' || c = '\t' || c = '\n' || c = '\r' || c = '\x0b' || c = '\x0c'

/-- Value of a decimal digit character. -/
def digVal (c : Char) : Nat := c.toNat - 48

/-- Value of a hexadecimal digit character. -/
def hexVal (c : Char) : Nat :=
  if isDigitCh c then c.toNat - 48
  else if 97 ≤ c.toNat && c.toNat ≤ 102 then c.toNat - 87
  else c.toNat - 55

/-- Numeric value of a decimal digit string (model of `int(s)` on digit strings). -/
def decVal (cs : List Char) : Nat := cs.foldl (fun a c => 10 * a + digVal c) 0

/-- Numeric value of a hexadecimal digit string (model of `int(s, 16)`). -/
def hexValStr (cs : List Char) : Nat := cs.foldl (fun a c => 16 * a + hexVal c) 0

/-! ## List-of-char string operations -/

/-- Model of Python `str.split(sep)` for a one-character separator:
always returns a non-empty list of separator-free parts. -/
def splitCh (sep : Char) : List Char → List (List Char)
  | [] => [[]]
  | c :: cs =>
    match splitCh sep cs with
    | [] => [[]]
    | p :: ps => if c = sep then [] :: p :: ps else (c :: p) :: ps

/-- Model of Python's substring test `needle in hay`. -/
def containsSub (hay needle : List Char) : Bool :=
  match hay with
  | [] => needle.isEmpty
  | _ :: t => needle.isPrefixOf hay || containsSub t needle

theorem splitCh_ne_nil (sep : Char) (cs : List Char) : splitCh sep cs ≠ [] := by
  cases cs with
  | nil => simp [splitCh]
  | cons c cs =>
    simp only [splitCh]
    cases h : splitCh sep cs with
    | nil => simp
    | cons p ps => by_cases hc : c = sep <;> simp [hc]

theorem splitCh_append (sep : Char) (xs ys : List Char) :
    splitCh sep (xs ++ sep :: ys) = splitCh sep xs ++ splitCh sep ys := by
  induction xs with
  | nil =>
    simp only [List.nil_append, splitCh]
    cases h : splitCh sep ys with
    | nil => exact absurd h (splitCh_ne_nil sep ys)
    | cons p ps => simp
  | cons x xs ih =>
    simp only [List.cons_append, splitCh, ih]
    cases hx : splitCh sep xs with
    | nil => exact absurd hx (splitCh_ne_nil sep xs)
    | cons p ps =>
      cases hy : splitCh sep ys with
      | nil => exact absurd hy (splitCh_ne_nil sep ys)
      | cons q qs =>
        simp only [List.append_eq]
        rw [ih, hx, hy]
        by_cases hc : x = sep <;> simp [hc]

theorem splitCh_of_not_mem (sep : Char) (xs : List Char) (h : sep ∉ xs) :
    splitCh sep xs = [xs] := by
  induction xs with
  | nil => rfl
  | cons x xs ih =>
    simp only [List.mem_cons, not_or] at h
    simp only [splitCh, ih h.2]
    have hx : ¬x = sep := fun hx => h.1 hx.symm
    simp [hx]

/-- Joins parts with a single-character separator (inverse of `splitCh`). -/
def joinSep (sep : Char) : List (List Char) → List Char
  | [] => []
  | [p] => p
  | p :: ps => p ++ sep :: joinSep sep ps

theorem joinSep_cons (sep : Char) (p : List Char) (ps : List (List Char)) (h : ps ≠ []) :
    joinSep sep (p :: ps) = p ++ sep :: joinSep sep ps := by
  cases ps with
  | nil => exact absurd rfl h
  | cons q qs => rfl

theorem joinSep_splitCh (sep : Char) (cs : List Char) :
    joinSep sep (splitCh sep cs) = cs := by
  induction cs with
  | nil => rfl
  | cons c cs ih =>
    simp only [splitCh]
    cases h : splitCh sep cs with
    | nil => exact absurd h (splitCh_ne_nil sep cs)
    | cons p ps =>
      rw [h] at ih
      by_cases hc : c = sep
      · subst hc
        dsimp only
        rw [if_pos rfl, joinSep_cons _ _ _ (by simp)]
        simp [ih]
      · dsimp only
        rw [if_neg hc]
        cases ps with
        | nil => simpa [joinSep] using congrArg (c :: ·) ih
        | cons q qs =>
          rw [joinSep_cons _ _ _ (by simp)] at ih ⊢
          simpa using congrArg (c :: ·) ih

theorem splitCh_parts_not_mem (sep : Char) (cs : List Char) :
    ∀ p ∈ splitCh sep cs, sep ∉ p := by
  induction cs with
  | nil => intro p hp; simp [splitCh] at hp; simp [hp]
  | cons c cs ih =>
    intro p hp
    simp only [splitCh] at hp
    cases h : splitCh sep cs with
    | nil => exact absurd h (splitCh_ne_nil sep cs)
    | cons q qs =>
      rw [h] at hp
      by_cases hc : c = sep
      · simp only [if_pos hc, List.mem_cons] at hp
        rcases hp with rfl | hpq | hp
        · simp
        · subst hpq
          exact ih p (by rw [h]; exact List.mem_cons_self p qs)
        · exact ih p (by rw [h]; exact List.mem_cons_of_mem q hp)
      · simp only [if_neg hc, List.mem_cons] at hp
        rcases hp with rfl | hp
        · have hq : sep ∉ q := ih q (by rw [h]; exact List.mem_cons_self q qs)
          simp only [List.mem_cons, not_or]
          exact ⟨fun hh => hc hh.symm, hq⟩
        · exact ih p (by rw [h]; exact List.mem_cons_of_mem q hp)

theorem splitCh_joinSep (sep : Char) (parts : List (List Char)) (hne : parts ≠ [])
    (hfree : ∀ p ∈ parts, sep ∉ p) :
    splitCh sep (joinSep sep parts) = parts := by
  induction parts with
  | nil => exact absurd rfl hne
  | cons p ps ih =>
    cases ps with
    | nil =>
      simpa [joinSep] using splitCh_of_not_mem sep p (hfree p (by simp))
    | cons q qs =>
      rw [joinSep_cons _ _ _ (by simp), splitCh_append,
        splitCh_of_not_mem sep p (hfree p (by simp)),
        ih (by simp) (fun r hr => hfree r (List.mem_cons_of_mem p hr))]
      rfl

/-! ## Decimal and hexadecimal representations -/

/-- Canonical decimal representation of a natural number
(model of Python `str(n)` / `'%d' % n`). -/
def natDec (n : Nat) : List Char :=
  if n = 0 then ['0'] else ((Nat.digits 10 n).map (fun d => Char.ofNat (48 + d))).reverse

/-- Canonical lowercase hexadecimal representation (model of Python `'%x' % n`). -/
def natHex (n : Nat) : List Char :=
  if n = 0 then ['0']
  else ((Nat.digits 16 n).map
    (fun d => if d < 10 then Char.ofNat (48 + d) else Char.ofNat (87 + d))).reverse

theorem natDec_ne_nil (n : Nat) : natDec n ≠ [] := by
  unfold natDec
  split
  · simp
  · rename_i h
    have : Nat.digits 10 n ≠ [] := Nat.digits_ne_nil_iff_ne_zero.mpr h
    simpa using this

theorem digit_char_isDigit {d : Nat} (h : d < 10) : isDigitCh (Char.ofNat (48 + d)) = true := by
  interval_cases d <;> decide

theorem digit_char_digVal {d : Nat} (h : d < 10) : digVal (Char.ofNat (48 + d)) = d := by
  interval_cases d <;> decide

theorem natDec_all_digit (n : Nat) : ∀ c ∈ natDec n, isDigitCh c = true := by
  intro c hc
  unfold natDec at hc
  split at hc
  · simp at hc; simp [hc]; decide
  · simp only [List.mem_reverse, List.mem_map] at hc
    obtain ⟨d, hd, rfl⟩ := hc
    exact digit_char_isDigit (Nat.digits_lt_base (by norm_num) hd)

theorem digit_char_eq {c : Char} (h : isDigitCh c = true) :
    c = Char.ofNat (48 + digVal c) ∧ digVal c < 10 := by
  simp only [isDigitCh, Bool.and_eq_true, decide_eq_true_eq] at h
  constructor
  · have heq : 48 + digVal c = c.toNat := by unfold digVal; omega
    rw [heq, Char.ofNat_toNat]
  · unfold digVal; omega

theorem decVal_eq_ofDigits (p : List Char) :
    decVal p = Nat.ofDigits 10 ((p.map digVal).reverse) := by
  induction p using List.reverseRecOn with
  | nil => rfl
  | append_singleton xs c ih =>
    simp only [decVal, List.foldl_append, List.foldl_cons, List.foldl_nil,
      List.map_append, List.reverse_append]
    simp only [decVal] at ih
    simp [Nat.ofDigits_cons, ih]
    ring

theorem decVal_natDec (n : Nat) : decVal (natDec n) = n := by
  by_cases h : n = 0
  · subst h; decide
  · unfold natDec
    rw [if_neg h, decVal_eq_ofDigits]
    have hmap : ((((Nat.digits 10 n).map (fun d => Char.ofNat (48 + d))).reverse).map
        digVal).reverse = Nat.digits 10 n := by
      rw [List.map_reverse, List.reverse_reverse, List.map_map]
      have : ∀ d ∈ Nat.digits 10 n, (digVal ∘ fun d => Char.ofNat (48 + d)) d = d := by
        intro d hd
        have hlt : d < 10 := Nat.digits_lt_base (by norm_num) hd
        simp only [Function.comp_apply]
        exact digit_char_digVal hlt
      exact (List.map_congr_left this).trans (List.map_id _)
    rw [hmap, Nat.ofDigits_digits]

theorem natDec_length_le (n : Nat) (h : n ≤ 255) : (natDec n).length ≤ 3 := by
  by_cases h0 : n = 0
  · subst h0; decide
  · unfold natDec
    rw [if_neg h0]
    simp only [List.length_reverse, List.length_map]
    by_contra hlen
    push_neg at hlen
    have hle : 10 ^ (Nat.digits 10 n).length ≤ 10 * n :=
      Nat.base_pow_length_digits_le 10 n (by norm_num) h0
    have : (10 : Nat) ^ 4 ≤ 10 ^ (Nat.digits 10 n).length :=
      Nat.pow_le_pow_right (by norm_num) hlen
    omega

theorem natDec_head_ne_zero (n : Nat) (h : n ≠ 0) : (natDec n).head? ≠ some '0' := by
  unfold natDec
  rw [if_neg h]
  have hnil : Nat.digits 10 n ≠ [] := Nat.digits_ne_nil_iff_ne_zero.mpr h
  have hlast : (Nat.digits 10 n).getLast hnil ≠ 0 := Nat.getLast_digit_ne_zero 10 h
  have hlt : (Nat.digits 10 n).getLast hnil < 10 :=
    Nat.digits_lt_base (by norm_num) (List.getLast_mem hnil)
  have hh : (((Nat.digits 10 n).map (fun d => Char.ofNat (48 + d))).reverse).head? =
      some (Char.ofNat (48 + (Nat.digits 10 n).getLast hnil)) := by
    rw [List.head?_reverse, List.getLast?_map,
      List.getLast?_eq_getLast _ hnil, Option.map_some']
  rw [hh]
  intro hcontra
  simp only [Option.some.injEq] at hcontra
  set d := (Nat.digits 10 n).getLast hnil with hd
  have hd1 : 1 ≤ d := Nat.one_le_iff_ne_zero.mpr hlast
  interval_cases d <;> exact absurd hcontra (by decide)

theorem natDec_canon (p : List Char) (hne : p ≠ []) (hdig : ∀ c ∈ p, isDigitCh c = true)
    (hlead : p.length = 1 ∨ p.head? ≠ some '0') : natDec (decVal p) = p := by
  cases p with
  | nil => exact absurd rfl hne
  | cons c p' =>
    by_cases hz : c = '0'
    · subst hz
      have hlen : ('0' :: p').length = 1 := by
        rcases hlead with h | h
        · exact h
        · exact absurd (rfl : ('0' :: p').head? = some '0') h
      have : p' = [] := by
        cases p' with
        | nil => rfl
        | cons _ _ => simp at hlen
      subst this
      decide
    · -- head digit is non-zero, so the canonical-digits machinery applies
      have hdv : decVal (c :: p') = Nat.ofDigits 10 (((c :: p').map digVal).reverse) :=
        decVal_eq_ofDigits _
      set L : List Nat := ((c :: p').map digVal).reverse with hL
      have hLne : L ≠ [] := by simp [hL]
      have hw1 : ∀ l ∈ L, l < 10 := by
        intro l hl
        rw [hL] at hl
        simp only [List.mem_reverse, List.mem_map] at hl
        obtain ⟨x, hx, rfl⟩ := hl
        exact (digit_char_eq (hdig x hx)).2
      have hw2 : ∀ hh : L ≠ [], L.getLast hh ≠ 0 := by
        intro hh hdc0
        have h1 : L.getLast? = some (L.getLast hh) := List.getLast?_eq_getLast L hh
        have h2 : L.getLast? = some (digVal c) := by
          rw [hL, List.getLast?_reverse]
          rfl
        rw [h1, hdc0] at h2
        have hdc : digVal c = 0 := by
          injection h2 with h2
          exact h2.symm
        apply hz
        have hce := (digit_char_eq (hdig c (by simp))).1
        rw [hdc] at hce
        simpa using hce
      have hdigits : Nat.digits 10 (Nat.ofDigits 10 L) = L :=
        Nat.digits_ofDigits 10 (by norm_num) L hw1 hw2
      have hnz : decVal (c :: p') ≠ 0 := by
        rw [hdv]
        intro h0
        rw [h0] at hdigits
        simp only [Nat.digits_zero] at hdigits
        exact hLne hdigits.symm
      unfold natDec
      rw [if_neg hnz, hdv, hdigits, hL]
      rw [List.map_reverse, List.reverse_reverse, List.map_map]
      have : ∀ x ∈ (c :: p'), ((fun d => Char.ofNat (48 + d)) ∘ digVal) x = x := by
        intro x hx
        simpa using ((digit_char_eq (hdig x hx)).1).symm
      exact (List.map_congr_left this).trans (List.map_id _)

/-! ## Model of CPython `ipaddress`: IPv4

`validate_ip_address` (utils.py:15-29) calls `ipaddress.ip_address`, which
first tries `IPv4Address(s)` and then `IPv6Address(s)`.  `octetOk` models
CPython's `IPv4Address._parse_octet`: non-empty, decimal digits only, at
most 3 characters, no leading zero (CPython ≥ 3.9.5), value at most 255. -/

def octetOk (p : List Char) : Bool :=
  !p.isEmpty && p.all isDigitCh && decide (p.length ≤ 3) &&
    (decide (p.length = 1) || decide (p.head? ≠ some '0')) && decide (decVal p ≤ 255)

/-- Model of `IPv4Address._ip_int_from_string`: split on `'.'`, require
exactly four valid octets, assemble the 32-bit value. -/
def ipv4Val (cs : List Char) : Option Nat :=
  match splitCh '.' cs with
  | [a, b, c, d] =>
    if octetOk a && octetOk b && octetOk c && octetOk d then
      some (((decVal a * 256 + decVal b) * 256 + decVal c) * 256 + decVal d)
    else none
  | _ => none

def ipv4Ok (cs : List Char) : Bool := (ipv4Val cs).isSome

/-- Specification-side notion of a syntactically valid IPv4 address:
the canonical dotted-decimal rendering of four octet values. -/
def SpecIPv4 (cs : List Char) : Prop :=
  ∃ a b c d : Nat, a ≤ 255 ∧ b ≤ 255 ∧ c ≤ 255 ∧ d ≤ 255 ∧
    cs = natDec a ++ '.' :: natDec b ++ '.' :: natDec c ++ '.' :: natDec d

theorem octetOk_natDec (n : Nat) (h : n ≤ 255) : octetOk (natDec n) = true := by
  have h1 := natDec_ne_nil n
  have h2 := natDec_all_digit n
  have h3 := natDec_length_le n h
  have h5 := decVal_natDec n
  unfold octetOk
  simp only [Bool.and_eq_true, Bool.or_eq_true, decide_eq_true_eq]
  refine ⟨⟨⟨⟨by simpa using h1, by simpa [List.all_eq_true] using h2⟩, h3⟩, ?_⟩,
    by rw [h5]; exact h⟩
  by_cases h0 : n = 0
  · subst h0; left; decide
  · right; exact natDec_head_ne_zero n h0

theorem octetOk_canon (p : List Char) (h : octetOk p = true) :
    decVal p ≤ 255 ∧ p = natDec (decVal p) := by
  unfold octetOk at h
  simp only [Bool.and_eq_true, Bool.or_eq_true, decide_eq_true_eq, List.all_eq_true] at h
  obtain ⟨⟨⟨⟨hne, hdig⟩, _⟩, hlead⟩, hval⟩ := h
  refine ⟨hval, ?_⟩
  exact (natDec_canon p (by simpa using hne) hdig hlead).symm

theorem natDec_dot_free (n : Nat) : '.' ∉ natDec n := by
  intro hmem
  have := natDec_all_digit n '.' hmem
  simp [isDigitCh] at this

theorem ipv4Ok_iff_SpecIPv4 (cs : List Char) : ipv4Ok cs = true ↔ SpecIPv4 cs := by
  constructor
  · intro h
    unfold ipv4Ok ipv4Val at h
    set parts := splitCh '.' cs with hparts
    match hm : parts with
    | [a, b, c, d] =>
      simp only at h
      split at h
      · rename_i hoct
        simp only [Bool.and_eq_true] at hoct
        obtain ⟨⟨⟨ha, hb⟩, hc⟩, hd⟩ := hoct
        obtain ⟨hva, hca⟩ := octetOk_canon a ha
        obtain ⟨hvb, hcb⟩ := octetOk_canon b hb
        obtain ⟨hvc, hcc⟩ := octetOk_canon c hc
        obtain ⟨hvd, hcd⟩ := octetOk_canon d hd
        refine ⟨decVal a, decVal b, decVal c, decVal d, hva, hvb, hvc, hvd, ?_⟩
        have hjoin : joinSep '.' (splitCh '.' cs) = cs := joinSep_splitCh '.' cs
        rw [← hparts] at hjoin
        rw [← hjoin, ← hca, ← hcb, ← hcc, ← hcd]
        simp [joinSep]
      · simp at h
    | [] => simp at h
    | [_] => simp at h
    | [_, _] => simp at h
    | [_, _, _] => simp at h
    | _ :: _ :: _ :: _ :: _ :: _ => simp at h
  · rintro ⟨a, b, c, d, ha, hb, hc, hd, rfl⟩
    unfold ipv4Ok ipv4Val
    have hsplit : splitCh '.' (natDec a ++ '.' :: natDec b ++ '.' :: natDec c ++ '.' :: natDec d)
        = [natDec a, natDec b, natDec c, natDec d] := by
      rw [splitCh_append, splitCh_append, splitCh_append,
        splitCh_of_not_mem _ _ (natDec_dot_free a),
        splitCh_of_not_mem _ _ (natDec_dot_free b),
        splitCh_of_not_mem _ _ (natDec_dot_free c),
        splitCh_of_not_mem _ _ (natDec_dot_free d)]
      rfl
    rw [hsplit]
    simp only [octetOk_natDec a ha, octetOk_natDec b hb, octetOk_natDec c hc,
      octetOk_natDec d hd, Bool.and_self, if_pos]
    rfl

/-! ## Model of CPython `ipaddress`: IPv6

`hextetOk` models `IPv6Address._parse_hextet`: only hexadecimal digits, at
most 4 of them, non-empty (the empty string fails `int('', 16)`).
`v6Assemble` models the part-list analysis of `_ip_int_from_string`
(at most 9 parts after the IPv4-suffix rewrite, at most one empty "inner"
part marking the `::` compression, a leading/trailing empty part only
immediately next to the compression, at least one zero group skipped), and
`ipv6Val` the surrounding driver (minimum 3 colon-separated parts,
hexadecimal conversion of an IPv4-style suffix).  Zone/scope identifiers
are outside the model. -/

def hextetOk (p : List Char) : Bool :=
  !p.isEmpty && p.all isHexCh && decide (p.length ≤ 4)

/-- `int(s, 16)`-style accumulation of hextets into the 128-bit value. -/
def hextetFold (acc : Nat) (l : List (List Char)) : Nat :=
  l.foldl (fun a p => a * 65536 + hexValStr p) acc

def v6Assemble (ps : List (List Char)) : Option Nat :=
  if 9 < ps.length then none
  else
    let inner := (ps.drop 1).dropLast
    let skips := inner.countP (fun p => p.isEmpty)
    if skips = 0 then
      if decide (ps.length = 8) && ps.all hextetOk then some (hextetFold 0 ps) else none
    else if skips = 1 then
      let si := inner.findIdx (fun p => p.isEmpty) + 1
      let lo0 := ps.length - si - 1
      let headEmpty : Bool := decide (ps.head? = some [])
      let lastEmpty : Bool := decide (ps.getLast? = some [])
      let hi := if headEmpty then si - 1 else si
      let lo := if lastEmpty then lo0 - 1 else lo0
      if (!headEmpty || decide (si = 1)) && (!lastEmpty || decide (lo0 = 1)) &&
          decide (hi + lo ≤ 7) && (ps.take hi).all hextetOk &&
          (ps.drop (ps.length - lo)).all hextetOk then
        some (hextetFold (hextetFold 0 (ps.take hi) * 65536 ^ (8 - (hi + lo)))
          (ps.drop (ps.length - lo)))
      else none
    else none

/-- Model of `IPv6Address._ip_int_from_string`. -/
def ipv6Val (cs : List Char) : Option Nat :=
  if cs.isEmpty then none
  else
    let parts := splitCh ':' cs
    if parts.length < 3 then none
    else
      let last := parts.getLastD []
      if '.' ∈ last then
        match ipv4Val last with
        | none => none
        | some v4 =>
          v6Assemble (parts.dropLast ++ [natHex (v4 / 65536 % 65536), natHex (v4 % 65536)])
      else v6Assemble parts

def ipv6Ok (cs : List Char) : Bool := (ipv6Val cs).isSome

/-- Model of `utils.validate_ip_address` (utils.py:15-29): true exactly when
`ipaddress.ip_address` accepts the string, i.e. when it parses as IPv4 or IPv6. -/
def validate_ip_address (s : String) : Bool := ipv4Ok s.data || ipv6Ok s.data

/-! ## Characterisation of the IPv6 part-list analysis -/

theorem hextetOk_ne_nil {p : List Char} (h : hextetOk p = true) : p ≠ [] := by
  unfold hextetOk at h
  simp only [Bool.and_eq_true, Bool.not_eq_true'] at h
  simpa using h.1.1

theorem hextetOk_not_isEmpty {p : List Char} (h : hextetOk p = true) : p.isEmpty = false := by
  have := hextetOk_ne_nil h
  cases p with
  | nil => exact absurd rfl this
  | cons _ _ => rfl

/-- The `lift` of a (possibly empty) group list to the part list produced by
`str.split(':')`: an empty side of a `::` contributes one empty part. -/
def liftP (l : List (List Char)) : List (List Char) := if l = [] then [[]] else l

theorem liftP_ne_nil (l : List (List Char)) : liftP l ≠ [] := by
  unfold liftP
  split
  · simp
  · assumption

theorem liftP_length_pos (l : List (List Char)) : 1 ≤ (liftP l).length := by
  have := liftP_ne_nil l
  cases h : liftP l with
  | nil => exact absurd h this
  | cons _ _ => simp

/-- The shape of part lists accepted by the CPython IPv6 analysis
(`v6Assemble`): either eight hextets, or a unique compression point with at
most seven hextets around it. -/
def V6Shape (ps : List (List Char)) : Prop :=
  (ps.length = 8 ∧ ∀ p ∈ ps, hextetOk p = true) ∨
  (∃ l r : List (List Char), (∀ p ∈ l, hextetOk p = true) ∧ (∀ p ∈ r, hextetOk p = true) ∧
    l.length + r.length ≤ 7 ∧ ps = liftP l ++ [[]] ++ liftP r)

theorem countP_isEmpty_zero {l : List (List Char)} (h : ∀ p ∈ l, hextetOk p = true) :
    l.countP (fun p => p.isEmpty) = 0 :=
  List.countP_eq_zero.mpr (fun p hp => by simp [hextetOk_not_isEmpty (h p hp)])

theorem findIdx_append_no_match {α : Type} (p : α → Bool) (xs ys : List α)
    (h : ∀ x ∈ xs, p x = false) :
    (xs ++ ys).findIdx p = xs.length + ys.findIdx p := by
  induction xs with
  | nil => simp
  | cons x xs ih =>
    rw [List.cons_append, List.findIdx_cons, h x (by simp), cond_false,
      ih (fun y hy => h y (List.mem_cons_of_mem x hy))]
    simp only [List.length_cons]
    omega

theorem v6Assemble_full_isSome (ps : List (List Char)) (h8 : ps.length = 8)
    (hok : ∀ p ∈ ps, hextetOk p = true) : (v6Assemble ps).isSome = true := by
  have hinner : ((ps.drop 1).dropLast).countP (fun p => p.isEmpty) = 0 :=
    countP_isEmpty_zero (fun p hp =>
      hok p (List.drop_subset 1 ps (List.dropLast_subset _ hp)))
  unfold v6Assemble
  rw [if_neg (by omega)]
  simp only [hinner, if_pos rfl, h8]
  have hall : ps.all hextetOk = true := List.all_eq_true.mpr hok
  have hcond : (decide True && ps.all hextetOk) = true := by rw [hall]; rfl
  rw [if_pos hcond]
  rfl

theorem v6Assemble_skip1 (ps : List (List Char)) (h9 : ¬ 9 < ps.length)
    (hc : ((ps.drop 1).dropLast).countP (fun p => p.isEmpty) = 1) :
    v6Assemble ps =
      (let si := ((ps.drop 1).dropLast).findIdx (fun p => p.isEmpty) + 1
       let lo0 := ps.length - si - 1
       let headEmpty : Bool := decide (ps.head? = some [])
       let lastEmpty : Bool := decide (ps.getLast? = some [])
       let hi := if headEmpty then si - 1 else si
       let lo := if lastEmpty then lo0 - 1 else lo0
       if (!headEmpty || decide (si = 1)) && (!lastEmpty || decide (lo0 = 1)) &&
           decide (hi + lo ≤ 7) && (ps.take hi).all hextetOk &&
           (ps.drop (ps.length - lo)).all hextetOk then
         some (hextetFold (hextetFold 0 (ps.take hi) * 65536 ^ (8 - (hi + lo)))
           (ps.drop (ps.length - lo)))
       else none) := by
  unfold v6Assemble
  rw [if_neg h9]
  dsimp only
  rw [hc]
  rfl

theorem v6Assemble_comp_isSome (l r : List (List Char))
    (hl : ∀ p ∈ l, hextetOk p = true) (hr : ∀ p ∈ r, hextetOk p = true)
    (hlen : l.length + r.length ≤ 7) :
    (v6Assemble (liftP l ++ [[]] ++ liftP r)).isSome = true := by
  rcases l with _ | ⟨x, l'⟩ <;> rcases r with _ | ⟨y, r'⟩
  · decide
  · -- l = [], r = y :: r'
    have hrne : (y :: r') ≠ ([] : List (List Char)) := by simp
    have hA : liftP [] ++ [[]] ++ liftP (y :: r') = [] :: [] :: y :: r' := by
      simp [liftP]
    rw [hA]
    have hinner : (([] :: [] :: y :: r' : List (List Char)).drop 1).dropLast
        = [[]] ++ (y :: r').dropLast := by
      show ([] :: y :: r' : List (List Char)).dropLast = [[]] ++ (y :: r').dropLast
      rw [show ([] :: y :: r' : List (List Char)) = [[]] ++ (y :: r') from rfl,
        List.dropLast_append_of_ne_nil _ hrne]
    have hcount : ((([] :: [] :: y :: r' : List (List Char)).drop 1).dropLast).countP
        (fun p => p.isEmpty) = 1 := by
      rw [hinner, List.countP_append]
      have h0 : ((y :: r').dropLast).countP (fun p : List Char => p.isEmpty) = 0 :=
        countP_isEmpty_zero (fun p hp => hr p (List.dropLast_subset _ hp))
      simp [h0, List.countP_cons]
    have hfind : ((([] :: [] :: y :: r' : List (List Char)).drop 1).dropLast).findIdx
        (fun p => p.isEmpty) = 0 := by
      rw [hinner]
      simp [List.findIdx_cons]
    have hlast : ([] :: [] :: y :: r' : List (List Char)).getLast? =
        some ((y :: r').getLast hrne) := by
      rw [show ([] :: [] :: y :: r' : List (List Char)) = [[], []] ++ (y :: r') from rfl,
        List.getLast?_append_of_ne_nil _ hrne, List.getLast?_eq_getLast _ hrne]
    have hlastne : (y :: r').getLast hrne ≠ [] :=
      hextetOk_ne_nil (hr _ (List.getLast_mem hrne))
    have h9 : ¬ 9 < ([] :: [] :: y :: r' : List (List Char)).length := by
      simp only [List.length_cons] at hlen ⊢
      omega
    rw [v6Assemble_skip1 _ h9 hcount]
    dsimp only
    rw [hfind, hlast]
    have hheadE : (([] :: [] :: y :: r' : List (List Char)).head? = some []) := rfl
    rw [hheadE]
    have hlastE : decide (some ((y :: r').getLast hrne) = some ([] : List Char)) = false := by
      simp [hlastne]
    rw [hlastE]
    have hlenE : ([] :: [] :: y :: r' : List (List Char)).length = r'.length + 3 := by simp
    rw [hlenE]
    have htake : (([] :: [] :: y :: r' : List (List Char)).take
        (if decide (some ([] : List Char) = some []) = true then 0 + 1 - 1 else 0 + 1)) = [] := by
      simp
    have hdrop : (([] :: [] :: y :: r' : List (List Char)).drop 2) = y :: r' := rfl
    have harith : r'.length + 3 - (0 + 1) - 1 = r'.length + 1 := by omega
    simp only [harith]
    simp [List.all_eq_true, hdrop]
    exact ⟨by simp at hlen; omega, hr y (by simp), fun x hx => hr x (List.mem_cons_of_mem y hx)⟩
  · -- l = x :: l', r = []
    have hlne : (x :: l') ≠ ([] : List (List Char)) := by simp
    have hxne : x ≠ [] := hextetOk_ne_nil (hl x (by simp))
    have hA : liftP (x :: l') ++ [[]] ++ liftP [] = (x :: l') ++ [[], []] := by
      simp [liftP]
    rw [hA]
    have hinner : (((x :: l') ++ [[], []] : List (List Char)).drop 1).dropLast
        = l' ++ [[]] := by
      show (l' ++ [[], []] : List (List Char)).dropLast = l' ++ [[]]
      rw [List.dropLast_append_of_ne_nil _ (by simp : ([[], []] : List (List Char)) ≠ [])]
      rfl
    have hnoE : ∀ p ∈ l', (fun p : List Char => p.isEmpty) p = false := by
      intro p hp
      exact hextetOk_not_isEmpty (hl p (List.mem_cons_of_mem x hp))
    have hcount : ((((x :: l') ++ [[], []] : List (List Char)).drop 1).dropLast).countP
        (fun p => p.isEmpty) = 1 := by
      rw [hinner, List.countP_append, List.countP_eq_zero.mpr (by simpa using hnoE)]
      rfl
    have hfind : ((((x :: l') ++ [[], []] : List (List Char)).drop 1).dropLast).findIdx
        (fun p => p.isEmpty) = l'.length := by
      rw [hinner, findIdx_append_no_match _ _ _ hnoE]
      rfl
    have hhead : ((x :: l') ++ [[], []] : List (List Char)).head? = some x := rfl
    have hlastq : ((x :: l') ++ [[], []] : List (List Char)).getLast? = some [] := by
      rw [show ((x :: l') ++ [[], []] : List (List Char)) =
        ((x :: l') ++ [[]]) ++ [[]] from by simp,
        List.getLast?_append_of_ne_nil _ (by simp : ([[]] : List (List Char)) ≠ [])]
      rfl
    have hlenE : ((x :: l') ++ [[], []] : List (List Char)).length = l'.length + 3 := by
      simp
    have h9 : ¬ 9 < ((x :: l') ++ [[], []] : List (List Char)).length := by
      simp only [hlenE]
      simp only [List.length_cons] at hlen
      omega
    rw [v6Assemble_skip1 _ h9 hcount]
    dsimp only
    rw [hfind, hhead, hlastq, hlenE]
    have hheadF : decide (some x = some ([] : List Char)) = false := by simp [hxne]
    rw [hheadF]
    have harith : l'.length + 3 - (l'.length + 1) - 1 = 1 := by omega
    simp only [harith]
    have htake : ((x :: l') ++ [[], []] : List (List Char)).take (l'.length + 1) = x :: l' := by
      rw [show l'.length + 1 = (x :: l').length from by simp, List.take_left]
    have hdropN : ((x :: l') ++ [[], []] : List (List Char)).drop (l'.length + 3) = [] := by
      rw [show l'.length + 3 = ((x :: l') ++ [[], []] : List (List Char)).length from by simp,
        List.drop_length]
    simp [List.all_eq_true, htake, hdropN]
    exact ⟨by simp at hlen; omega, hl x (by simp), fun p hp => hl p (List.mem_cons_of_mem x hp)⟩
  · -- l = x :: l', r = y :: r'
    have hlne : (x :: l') ≠ ([] : List (List Char)) := by simp
    have hrne : (y :: r') ≠ ([] : List (List Char)) := by simp
    have hxne : x ≠ [] := hextetOk_ne_nil (hl x (by simp))
    have hA : liftP (x :: l') ++ [[]] ++ liftP (y :: r') =
        (x :: l') ++ [[]] ++ (y :: r') := by simp [liftP]
    rw [hA]
    have hassoc : ((x :: l') ++ [[]] ++ (y :: r') : List (List Char)) =
        x :: (l' ++ ([[]] ++ (y :: r'))) := by simp
    have hinner : (((x :: l') ++ [[]] ++ (y :: r') : List (List Char)).drop 1).dropLast
        = l' ++ ([[]] ++ (y :: r').dropLast) := by
      rw [hassoc]
      show (l' ++ ([[]] ++ (y :: r')) : List (List Char)).dropLast =
        l' ++ ([[]] ++ (y :: r').dropLast)
      rw [show (l' ++ ([[]] ++ (y :: r')) : List (List Char)) =
        (l' ++ [[]]) ++ (y :: r') from by simp,
        List.dropLast_append_of_ne_nil _ hrne]
      simp
    have hnoE : ∀ p ∈ l', (fun p : List Char => p.isEmpty) p = false := by
      intro p hp
      exact hextetOk_not_isEmpty (hl p (List.mem_cons_of_mem x hp))
    have hcount : ((((x :: l') ++ [[]] ++ (y :: r') : List (List Char)).drop 1).dropLast).countP
        (fun p => p.isEmpty) = 1 := by
      have hc1 : l'.countP (fun p : List Char => p.isEmpty) = 0 :=
        List.countP_eq_zero.mpr (by simpa using hnoE)
      have hc2 : ((y :: r').dropLast).countP (fun p : List Char => p.isEmpty) = 0 :=
        countP_isEmpty_zero (fun p hp => hr p (List.dropLast_subset _ hp))
      rw [hinner, List.countP_append, List.countP_append, hc1, hc2]
      rfl
    have hfind : ((((x :: l') ++ [[]] ++ (y :: r') : List (List Char)).drop 1).dropLast).findIdx
        (fun p => p.isEmpty) = l'.length := by
      rw [hinner, findIdx_append_no_match _ _ _ hnoE]
      rfl
    have hhead : ((x :: l') ++ [[]] ++ (y :: r') : List (List Char)).head? = some x := rfl
    have hlastg : ((x :: l') ++ [[]] ++ (y :: r') : List (List Char)).getLast? =
        some ((y :: r').getLast hrne) := by
      rw [List.getLast?_append_of_ne_nil _ hrne, List.getLast?_eq_getLast _ hrne]
    have hlastne : (y :: r').getLast hrne ≠ [] :=
      hextetOk_ne_nil (hr _ (List.getLast_mem hrne))
    have hlenE : ((x :: l') ++ [[]] ++ (y :: r') : List (List Char)).length =
        l'.length + r'.length + 3 := by
      simp
      omega
    have h9 : ¬ 9 < ((x :: l') ++ [[]] ++ (y :: r') : List (List Char)).length := by
      rw [hlenE]
      simp only [List.length_cons] at hlen
      omega
    rw [v6Assemble_skip1 _ h9 hcount]
    dsimp only
    rw [hfind, hhead, hlastg, hlenE]
    have hheadF : decide (some x = some ([] : List Char)) = false := by simp [hxne]
    have hlastF : decide (some ((y :: r').getLast hrne) = some ([] : List Char)) = false := by
      simp [hlastne]
    rw [hheadF, hlastF]
    have harith : l'.length + r'.length + 3 - (l'.length + 1) - 1 = r'.length + 1 := by omega
    simp only [harith]
    have htake : ((x :: l') ++ [[]] ++ (y :: r') : List (List Char)).take (l'.length + 1)
        = x :: l' := by
      rw [show ((x :: l') ++ [[]] ++ (y :: r') : List (List Char)) =
        (x :: l') ++ ([[]] ++ (y :: r')) from by simp,
        show l'.length + 1 = (x :: l').length from by simp, List.take_left]
    have hdropN : ((x :: l') ++ [[]] ++ (y :: r') : List (List Char)).drop (l'.length + 2)
        = y :: r' := by
      rw [show ((x :: l') ++ [[]] ++ (y :: r') : List (List Char)) =
        ((x :: l') ++ [[]]) ++ (y :: r') from by simp,
        show l'.length + 2 = ((x :: l') ++ [[]] : List (List Char)).length from by simp,
        List.drop_left]
    have harith2 : l'.length + r'.length + 3 - (r'.length + 1) = l'.length + 2 := by omega
    simp [List.all_eq_true, htake, hdropN, harith2]
    refine ⟨⟨?_, hl x (by simp), fun p hp => hl p (List.mem_cons_of_mem x hp)⟩,
      hr y (by simp), fun p hp => hr p (List.mem_cons_of_mem y hp)⟩
    simp only [List.length_cons] at hlen
    omega

theorem countP_eq_one_split {α : Type} (p : α → Bool) (l : List α) (h : l.countP p = 1) :
    ∃ a x b, l = a ++ x :: b ∧ (∀ y ∈ a, p y = false) ∧ p x = true ∧
      (∀ y ∈ b, p y = false) ∧ l.findIdx p = a.length := by
  induction l with
  | nil => simp at h
  | cons z l ih =>
    rw [List.countP_cons] at h
    by_cases hz : p z
    · have hl0 : l.countP p = 0 := by
        rw [if_pos hz] at h
        omega
      refine ⟨[], z, l, by simp, by simp, hz, ?_, ?_⟩
      · intro y hy
        have hy2 := List.countP_eq_zero.mp hl0 y hy
        simpa using hy2
      · simp [List.findIdx_cons, hz]
    · have hl1 : l.countP p = 1 := by
        rw [if_neg hz] at h
        omega
      obtain ⟨a, x, b, rfl, ha, hx, hb, hfind⟩ := ih hl1
      refine ⟨z :: a, x, b, by simp, ?_, hx, hb, ?_⟩
      · intro y hy
        rcases List.mem_cons.mp hy with rfl | hy
        · simpa using hz
        · exact ha y hy
      · rw [List.findIdx_cons]
        simp [hz, hfind]

theorem v6Assemble_isSome_imp (ps : List (List Char))
    (h : (v6Assemble ps).isSome = true) : V6Shape ps := by
  by_cases h9 : 9 < ps.length
  · unfold v6Assemble at h
    rw [if_pos h9] at h
    simp at h
  rcases hcnt : ((ps.drop 1).dropLast).countP (fun p => p.isEmpty) with _ | n
  · -- no compression point: the full 8-hextet form
    unfold v6Assemble at h
    rw [if_neg h9] at h
    dsimp only at h
    rw [hcnt, if_pos rfl] at h
    split at h
    · rename_i hcond
      simp only [Bool.and_eq_true, decide_eq_true_eq, List.all_eq_true] at hcond
      exact Or.inl hcond
    · simp at h
  · rcases n with _ | m
    · -- exactly one compression point
      rw [v6Assemble_skip1 _ h9 hcnt] at h
      dsimp only at h
      rcases ps with _ | ⟨p0, t⟩
      · simp at hcnt
      have hcnt1 : (t.dropLast).countP (fun p : List Char => p.isEmpty) = 1 := by
        simpa using hcnt
      obtain ⟨a, x, b, hab, ha, hx, hb, hfind⟩ :=
        countP_eq_one_split (fun p : List Char => p.isEmpty) t.dropLast hcnt1
      have hxnil : x = [] := List.isEmpty_iff.mp hx
      subst hxnil
      have htne : t ≠ [] := by
        intro h0
        rw [h0] at hab
        simp at hab
      have hgl := List.dropLast_append_getLast htne
      rw [hab] at hgl
      obtain ⟨pl, hpleq⟩ : ∃ x, t.getLast htne = x := ⟨_, rfl⟩
      rw [hpleq] at hgl
      simp only [List.drop_succ_cons, List.drop_zero] at h
      simp only [hfind] at h
      clear hfind hab hcnt hcnt1 hpleq htne h9 hx
      subst hgl
      have hlenps : (p0 :: (a ++ [] :: b ++ [pl])).length = a.length + b.length + 3 := by
        simp
        omega
      have hhead : (p0 :: (a ++ [] :: b ++ [pl])).head? = some p0 := rfl
      have hlastq : (p0 :: (a ++ [] :: b ++ [pl])).getLast? = some pl := by
        rw [show (p0 :: (a ++ [] :: b ++ [pl]) : List (List Char)) =
          (p0 :: (a ++ [] :: b)) ++ [pl] from by simp,
          List.getLast?_append_of_ne_nil _ (by simp : ([pl] : List (List Char)) ≠ [])]
        rfl
      have htake1 : (p0 :: (a ++ [] :: b ++ [pl])).take (a.length + 1) = p0 :: a := by
        rw [show (p0 :: (a ++ [] :: b ++ [pl]) : List (List Char)) =
          (p0 :: a) ++ ([] :: (b ++ [pl])) from by simp,
          show a.length + 1 = (p0 :: a).length from by simp, List.take_left]
      have hdrop2 : (p0 :: (a ++ [] :: b ++ [pl])).drop (a.length + 2) = b ++ [pl] := by
        rw [show (p0 :: (a ++ [] :: b ++ [pl]) : List (List Char)) =
          ((p0 :: a) ++ [[]]) ++ (b ++ [pl]) from by simp,
          show a.length + 2 = ((p0 :: a) ++ [[]] : List (List Char)).length from by simp,
          List.drop_left]
      by_cases hHE : p0 = []
      · by_cases hLE : pl = []
        · -- both ends empty: ps = [[], [], []]
          subst hHE
          subst hLE
          simp only [hhead, hlastq, hlenps] at h
          simp [List.all_eq_true] at h
          obtain ⟨⟨⟨⟨ha0, hb2⟩, h7⟩, htk⟩, hdr⟩ := h
          subst ha0
          have hb0 : b = [] := List.length_eq_zero.mp (by omega)
          subst hb0
          exact Or.inr ⟨[], [], by simp, by simp, by simp, by rfl⟩
        · -- leading "::"
          subst hHE
          simp only [hhead, hlastq, hlenps] at h
          simp [List.all_eq_true, hLE] at h
          obtain ⟨⟨⟨ha0, h7⟩, htk⟩, hdr⟩ := h
          subst ha0
          simp at hdr h7
          refine Or.inr ⟨[], b ++ [pl], by simp, ?_, by simp; omega, by simp [liftP]⟩
          intro p hp
          rcases List.mem_append.mp hp with hp | hp
          · exact hdr p (Or.inl hp)
          · exact hdr p (Or.inr (by simpa using hp))
      · by_cases hLE : pl = []
        · -- trailing "::"
          subst hLE
          simp only [hhead, hlastq, hlenps] at h
          simp [List.all_eq_true, hHE] at h
          obtain ⟨⟨⟨hb2, h7⟩, hp0, hAll⟩, hdr⟩ := h
          have hb0 : b = [] := List.length_eq_zero.mp (by omega)
          subst hb0
          refine Or.inr ⟨p0 :: a, [], ?_, by simp, by simp; omega, by simp [liftP]⟩
          intro p hp
          rcases List.mem_cons.mp hp with rfl | hp
          · exact hp0
          · exact hAll p hp
        · -- interior "::"
          simp only [hhead, hlastq, hlenps] at h
          simp [List.all_eq_true, hHE, hLE] at h
          obtain ⟨⟨h7, hp0, hAll⟩, hdr⟩ := h
          have hidx : a.length + b.length + 3 - (a.length + b.length + 2 - a.length - 1) =
              a.length + 2 := by omega
          simp only [hidx] at hdr
          have hr2 : ∀ x ∈ b ++ [pl], hextetOk x = true := by
            intro x hx
            apply hdr
            have hdd : List.drop (a.length + 2) (p0 :: (a ++ [] :: (b ++ [pl]))) = b ++ [pl] := by
              rw [show (p0 :: (a ++ [] :: (b ++ [pl])) : List (List Char)) =
                ((p0 :: a) ++ [[]]) ++ (b ++ [pl]) from by simp,
                show a.length + 2 = ((p0 :: a) ++ [[]] : List (List Char)).length from by simp,
                List.drop_left]
            rw [hdd]
            exact hx
          refine Or.inr ⟨p0 :: a, b ++ [pl], ?_, hr2, by simp; omega, by simp [liftP]⟩
          intro p hp
          rcases List.mem_cons.mp hp with rfl | hp
          · exact hp0
          · exact hAll p hp
    · -- two or more empties: rejected
      unfold v6Assemble at h
      rw [if_neg h9] at h
      dsimp only at h
      rw [hcnt] at h
      simp at h

/-- Full characterisation of the CPython IPv6 part-list analysis. -/
theorem v6Assemble_isSome_iff (ps : List (List Char)) :
    (v6Assemble ps).isSome = true ↔ V6Shape ps := by
  constructor
  · exact v6Assemble_isSome_imp ps
  · intro h
    rcases h with ⟨h8, hok⟩ | ⟨l, r, hl, hr, hlen, rfl⟩
    · exact v6Assemble_full_isSome ps h8 hok
    · exact v6Assemble_comp_isSome l r hl hr hlen

/-! ## Bridging lemmas between string forms and part lists -/

theorem hextetOk_chars {p : List Char} (h : hextetOk p = true) :
    ∀ c ∈ p, isHexCh c = true := by
  unfold hextetOk at h
  simp only [Bool.and_eq_true, List.all_eq_true] at h
  exact h.1.2

theorem hexCh_ne_colon {c : Char} (h : isHexCh c = true) : c ≠ ':' := by
  intro hc
  subst hc
  simp [isHexCh, isDigitCh] at h

theorem hexCh_ne_dot {c : Char} (h : isHexCh c = true) : c ≠ '.' := by
  intro hc
  subst hc
  simp [isHexCh, isDigitCh] at h

theorem hextetOk_colon_free {p : List Char} (h : hextetOk p = true) : ':' ∉ p := by
  intro hc
  exact hexCh_ne_colon (hextetOk_chars h ':' hc) rfl

theorem hextetOk_dot_free {p : List Char} (h : hextetOk p = true) : '.' ∉ p := by
  intro hc
  exact hexCh_ne_dot (hextetOk_chars h '.' hc) rfl

theorem SpecIPv4_ne_nil {q : List Char} (h : SpecIPv4 q) : q ≠ [] := by
  obtain ⟨a, b, c, d, _, _, _, _, rfl⟩ := h
  have := natDec_ne_nil a
  cases hh : natDec a with
  | nil => exact absurd hh this
  | cons x xs => simp [hh]

theorem SpecIPv4_has_dot {q : List Char} (h : SpecIPv4 q) : '.' ∈ q := by
  obtain ⟨a, b, c, d, _, _, _, _, rfl⟩ := h
  simp

theorem SpecIPv4_chars {q : List Char} (h : SpecIPv4 q) :
    ∀ c ∈ q, isDigitCh c = true ∨ c = '.' := by
  obtain ⟨a, b, c0, d, _, _, _, _, rfl⟩ := h
  intro c hc
  simp only [List.mem_append, List.mem_cons] at hc
  casesm* _ ∨ _
  all_goals
    first
      | exact Or.inr (by assumption)
      | exact Or.inl (natDec_all_digit a c (by assumption))
      | exact Or.inl (natDec_all_digit b c (by assumption))
      | exact Or.inl (natDec_all_digit c0 c (by assumption))
      | exact Or.inl (natDec_all_digit d c (by assumption))

theorem SpecIPv4_colon_free {q : List Char} (h : SpecIPv4 q) : ':' ∉ q := by
  intro hc
  rcases SpecIPv4_chars h ':' hc with h1 | h1
  · simp [isDigitCh] at h1
  · exact absurd h1 (by decide)

theorem natHex_ne_nil (n : Nat) : natHex n ≠ [] := by
  unfold natHex
  split
  · simp
  · rename_i h
    have : Nat.digits 16 n ≠ [] := Nat.digits_ne_nil_iff_ne_zero.mpr h
    simpa using this

theorem natHex_all_hex (n : Nat) : ∀ c ∈ natHex n, isHexCh c = true := by
  intro c hc
  unfold natHex at hc
  split at hc
  · simp at hc
    subst hc
    decide
  · simp only [List.mem_reverse, List.mem_map] at hc
    obtain ⟨d, hd, rfl⟩ := hc
    have hlt : d < 16 := Nat.digits_lt_base (by norm_num) hd
    interval_cases d <;> decide

theorem natHex_length_le (n : Nat) (h : n < 65536) : (natHex n).length ≤ 4 := by
  by_cases h0 : n = 0
  · subst h0; decide
  · unfold natHex
    rw [if_neg h0]
    simp only [List.length_reverse, List.length_map]
    by_contra hlen
    push_neg at hlen
    have hle : 16 ^ (Nat.digits 16 n).length ≤ 16 * n :=
      Nat.base_pow_length_digits_le 16 n (by norm_num) h0
    have hp : (16 : Nat) ^ 5 ≤ 16 ^ (Nat.digits 16 n).length :=
      Nat.pow_le_pow_right (by norm_num) hlen
    omega

theorem hextetOk_natHex (n : Nat) (h : n < 65536) : hextetOk (natHex n) = true := by
  unfold hextetOk
  simp only [Bool.and_eq_true, Bool.not_eq_true', List.all_eq_true, decide_eq_true_eq]
  refine ⟨⟨?_, natHex_all_hex n⟩, natHex_length_le n h⟩
  have := natHex_ne_nil n
  cases hh : natHex n with
  | nil => exact absurd hh this
  | cons x xs => rfl

/-- `splitCh` at a leading separator. -/
theorem splitCh_cons_sep (sep : Char) (cs : List Char) :
    splitCh sep (sep :: cs) = [] :: splitCh sep cs := by
  simp only [splitCh]
  cases h : splitCh sep cs with
  | nil => exact absurd h (splitCh_ne_nil sep cs)
  | cons p ps => simp

theorem joinSep_append (sep : Char) (xs ys : List (List Char)) (hx : xs ≠ []) (hy : ys ≠ []) :
    joinSep sep (xs ++ ys) = joinSep sep xs ++ sep :: joinSep sep ys := by
  induction xs with
  | nil => exact absurd rfl hx
  | cons p ps ih =>
    cases ps with
    | nil =>
      rw [List.cons_append, List.nil_append, joinSep_cons _ _ _ hy]
      rfl
    | cons q qs =>
      rw [List.cons_append, joinSep_cons _ _ _ (by simp), joinSep_cons _ _ _ (by simp),
        ih (by simp)]
      simp

theorem splitCh_liftP (l : List (List Char)) (hfree : ∀ p ∈ l, ':' ∉ p) :
    splitCh ':' (joinSep ':' l) = liftP l := by
  cases hl : l with
  | nil => rfl
  | cons p ps =>
    rw [← hl]
    rw [splitCh_joinSep ':' l (by rw [hl]; simp) hfree]
    unfold liftP
    rw [if_neg (by rw [hl]; simp)]

theorem splitCh_dcolon (l r : List (List Char)) (hfl : ∀ p ∈ l, ':' ∉ p)
    (hfr : ∀ p ∈ r, ':' ∉ p) :
    splitCh ':' (joinSep ':' l ++ ':' :: ':' :: joinSep ':' r) = liftP l ++ [[]] ++ liftP r := by
  rw [splitCh_append, splitCh_cons_sep, splitCh_liftP l hfl, splitCh_liftP r hfr]
  simp

theorem joinSep_dcolon (l r : List (List Char)) :
    joinSep ':' (liftP l ++ [[]] ++ liftP r) = joinSep ':' l ++ ':' :: ':' :: joinSep ':' r := by
  have hnil : liftP ([] : List (List Char)) = [[]] := by
    unfold liftP
    rw [if_pos rfl]
  cases l with
  | nil =>
    cases r with
    | nil =>
      rw [hnil]
      rfl
    | cons q qs =>
      have hlr : liftP (q :: qs) = q :: qs := by
        unfold liftP
        rw [if_neg (by simp)]
      rw [hnil, hlr]
      show joinSep ':' ([] :: [] :: q :: qs) = ':' :: ':' :: joinSep ':' (q :: qs)
      rw [joinSep_cons ':' [] ([] :: q :: qs) (by simp), joinSep_cons ':' [] (q :: qs) (by simp)]
      rfl
  | cons p ps =>
    have hll : liftP (p :: ps) = p :: ps := by
      unfold liftP
      rw [if_neg (by simp)]
    cases r with
    | nil =>
      rw [hnil, hll]
      have h1 : ((p :: ps) ++ [[]] ++ [[]] : List (List Char)) = (p :: ps) ++ [[], []] := by
        simp
      rw [h1, joinSep_append ':' (p :: ps) [[], []] (by simp) (by simp)]
      rfl
    | cons q qs =>
      have hlr : liftP (q :: qs) = q :: qs := by
        unfold liftP
        rw [if_neg (by simp)]
      rw [hll, hlr]
      have h1 : ((p :: ps) ++ [[]] ++ (q :: qs) : List (List Char)) =
          (p :: ps) ++ ([] :: q :: qs) := by
        simp
      rw [h1, joinSep_append ':' (p :: ps) ([] :: q :: qs) (by simp) (by simp),
        joinSep_cons ':' [] (q :: qs) (by simp)]
      rfl

theorem getLastD_mem (l : List (List Char)) (hne : l ≠ []) (d : List Char) :
    l.getLastD d ∈ l := by
  rw [List.getLastD_eq_getLast? d l, List.getLast?_eq_getLast l hne]
  exact List.getLast_mem hne

/-- Specification-side notion of a syntactically valid IPv6 address string:
hextet groups joined by `:`, either eight of them, or an optional `::`
compression, optionally ending in an embedded dotted-quad IPv4 suffix
(counting as two groups). -/
def SpecIPv6 (cs : List Char) : Prop :=
  (∃ gs : List (List Char), gs.length = 8 ∧ (∀ g ∈ gs, hextetOk g = true) ∧
    cs = joinSep ':' gs) ∨
  (∃ l r : List (List Char), (∀ g ∈ l, hextetOk g = true) ∧ (∀ g ∈ r, hextetOk g = true) ∧
    l.length + r.length ≤ 7 ∧ cs = joinSep ':' l ++ ':' :: ':' :: joinSep ':' r) ∨
  (∃ gs q, gs.length = 6 ∧ (∀ g ∈ gs, hextetOk g = true) ∧ SpecIPv4 q ∧
    cs = joinSep ':' (gs ++ [q])) ∨
  (∃ l r q, (∀ g ∈ l, hextetOk g = true) ∧ (∀ g ∈ r, hextetOk g = true) ∧
    l.length + r.length ≤ 5 ∧ SpecIPv4 q ∧
    cs = joinSep ':' l ++ ':' :: ':' :: joinSep ':' (r ++ [q]))

theorem exists_concat2 {α : Type} (l : List α) (h : 2 ≤ l.length) :
    ∃ l2 a b, l = l2 ++ [a, b] := by
  induction l using List.reverseRecOn with
  | nil => simp at h
  | append_singleton xs x _ =>
    have hne : xs ≠ [] := by
      intro h0
      rw [h0] at h
      simp at h
    refine ⟨xs.dropLast, xs.getLast hne, x, ?_⟩
    rw [show xs.dropLast ++ [xs.getLast hne, x] =
      (xs.dropLast ++ [xs.getLast hne]) ++ [x] from by simp,
      List.dropLast_append_getLast hne]

theorem isEmpty_eq_false_of_ne_nil {α : Type} (l : List α) (h : l ≠ []) :
    l.isEmpty = false := by
  cases l with
  | nil => exact absurd rfl h
  | cons a t => rfl

theorem ne_nil_of_splitCh_length (cs : List Char) (h : 2 ≤ (splitCh ':' cs).length) :
    cs ≠ [] := by
  intro h0
  subst h0
  simp [splitCh] at h

theorem getLastD_append_right {α : Type} (A B : List α) (d : α) (h : B ≠ []) :
    (A ++ B).getLastD d = B.getLastD d := by
  rw [List.getLastD_eq_getLast? _ _, List.getLastD_eq_getLast? _ _,
    List.getLast?_append_of_ne_nil _ h]

theorem getLastD_concat {α : Type} (A : List α) (x d : α) :
    (A ++ [x]).getLastD d = x := by
  rw [getLastD_append_right A [x] d (by simp)]
  rfl

theorem ipv6Ok_iff_SpecIPv6 (cs : List Char) : ipv6Ok cs = true ↔ SpecIPv6 cs := by
  constructor
  · intro h
    unfold ipv6Ok ipv6Val at h
    split at h
    · simp at h
    rename_i hcsne
    dsimp only at h
    split at h
    · simp at h
    rename_i hlen3
    split at h
    · rename_i hdot
      split at h
      · simp at h
      · rename_i v4 hv4
        have hpne := splitCh_ne_nil ':' cs
        have hlastd : (splitCh ':' cs).getLastD [] = (splitCh ':' cs).getLast hpne := by
          rw [List.getLastD_eq_getLast? _ _, List.getLast?_eq_getLast _ hpne]
          rfl
        have hPdec : (splitCh ':' cs).dropLast ++ [(splitCh ':' cs).getLast hpne] =
            splitCh ':' cs := List.dropLast_append_getLast hpne
        have hspec4 : SpecIPv4 ((splitCh ':' cs).getLast hpne) := by
          apply (ipv4Ok_iff_SpecIPv4 _).mp
          unfold ipv4Ok
          rw [← hlastd, hv4]
          rfl
        have hshape := v6Assemble_isSome_imp _ h
        rcases hshape with ⟨h8, hok⟩ | ⟨l, r, hl, hr, hlen, hEq⟩
        · refine Or.inr (Or.inr (Or.inl ⟨(splitCh ':' cs).dropLast,
            (splitCh ':' cs).getLast hpne, ?_, ?_, hspec4, ?_⟩))
          · simp only [List.length_append, List.length_cons, List.length_nil] at h8
            omega
          · intro g hg
            exact hok g (List.mem_append.mpr (Or.inl hg))
          · conv_rhs => rw [hPdec]
            exact (joinSep_splitCh ':' cs).symm
        · -- compressed form with an embedded IPv4 suffix
          have hh1 := natHex_ne_nil (v4 / 65536 % 65536)
          have hh2 := natHex_ne_nil (v4 % 65536)
          have hrne : r ≠ [] := by
            intro h0
            subst h0
            have hgl : ((splitCh ':' cs).dropLast ++
                [natHex (v4 / 65536 % 65536), natHex (v4 % 65536)]).getLast? =
                (liftP l ++ [[]] ++ liftP []).getLast? := by rw [hEq]
            rw [show ((splitCh ':' cs).dropLast ++
              [natHex (v4 / 65536 % 65536), natHex (v4 % 65536)]) =
              ((splitCh ':' cs).dropLast ++ [natHex (v4 / 65536 % 65536)]) ++
                [natHex (v4 % 65536)] from by simp,
              List.getLast?_append_of_ne_nil _ (by simp : ([natHex (v4 % 65536)] :
                List (List Char)) ≠ [])] at hgl
            rw [show (liftP l ++ [[]] ++ liftP [] : List (List Char)) =
              (liftP l ++ [[]]) ++ liftP [] from by simp,
              List.getLast?_append_of_ne_nil _ (liftP_ne_nil [])] at hgl
            simp [liftP] at hgl
            exact hh2 hgl
          have hlr : liftP r = r := by
            unfold liftP
            rw [if_neg hrne]
          rw [hlr] at hEq
          have hr2 : 2 ≤ r.length := by
            by_contra hcon
            push_neg at hcon
            interval_cases hrl : r.length
            · exact hrne (List.length_eq_zero.mp hrl)
            · obtain ⟨x, hx⟩ := List.length_eq_one.mp hrl
              subst hx
              -- r = [x]: compare the last two elements
              have hglq : ((splitCh ':' cs).dropLast ++
                  [natHex (v4 / 65536 % 65536), natHex (v4 % 65536)]).dropLast.getLast? =
                  ((liftP l ++ [[]]) ++ [x]).dropLast.getLast? := by
                rw [hEq]
              rw [show ((splitCh ':' cs).dropLast ++
                [natHex (v4 / 65536 % 65536), natHex (v4 % 65536)]) =
                ((splitCh ':' cs).dropLast ++ [natHex (v4 / 65536 % 65536)]) ++
                  [natHex (v4 % 65536)] from by simp,
                List.dropLast_concat, List.dropLast_concat,
                List.getLast?_append_of_ne_nil _
                  (by simp : ([natHex (v4 / 65536 % 65536)] : List (List Char)) ≠ []),
                List.getLast?_append_of_ne_nil _
                  (by simp : ([[]] : List (List Char)) ≠ [])] at hglq
              simp at hglq
              exact hh1 hglq
          obtain ⟨r2, g1, g2, hrdec⟩ := exists_concat2 r hr2
          subst hrdec
          have hEq2 : (splitCh ':' cs).dropLast ++
              [natHex (v4 / 65536 % 65536), natHex (v4 % 65536)] =
              (liftP l ++ [[]] ++ r2) ++ [g1, g2] := by
            rw [hEq]
            simp
          obtain ⟨hPeq, hgs⟩ := List.append_inj' hEq2 (by simp)
          refine Or.inr (Or.inr (Or.inr ⟨l, r2, (splitCh ':' cs).getLast hpne,
            hl, ?_, ?_, hspec4, ?_⟩))
          · intro g hg
            exact hr g (List.mem_append.mpr (Or.inl hg))
          · simp only [List.length_append, List.length_cons, List.length_nil] at hlen
            omega
          · have hparts2 : splitCh ':' cs = liftP l ++ [[]] ++
                (r2 ++ [(splitCh ':' cs).getLast hpne]) := by
              conv_lhs => rw [← hPdec]
              rw [hPeq]
              simp
            have hjs := joinSep_splitCh ':' cs
            rw [hparts2] at hjs
            have hlnonnil : liftP (r2 ++ [(splitCh ':' cs).getLast hpne]) =
                r2 ++ [(splitCh ':' cs).getLast hpne] := by
              unfold liftP
              rw [if_neg (by simp)]
            rw [← hlnonnil, joinSep_dcolon] at hjs
            exact hjs.symm
    · rename_i hnodot
      have hshape := v6Assemble_isSome_imp _ h
      rcases hshape with ⟨h8, hok⟩ | ⟨l, r, hl, hr, hlen, hEq⟩
      · exact Or.inl ⟨splitCh ':' cs, h8, hok, (joinSep_splitCh ':' cs).symm⟩
      · refine Or.inr (Or.inl ⟨l, r, hl, hr, hlen, ?_⟩)
        have hjs := joinSep_splitCh ':' cs
        rw [hEq, joinSep_dcolon] at hjs
        exact hjs.symm
  · intro h
    rcases h with ⟨gs, h8, hok, rfl⟩ | ⟨l, r, hl, hr, hlen, rfl⟩ |
      ⟨gs, q, h6, hok, hq4, rfl⟩ | ⟨l, r, q, hl, hr, hlen, hq4, rfl⟩
    · -- full eight-group form
      have hgsne : gs ≠ [] := by
        intro h0
        rw [h0] at h8
        simp at h8
      have hfree : ∀ p ∈ gs, ':' ∉ p := fun p hp => hextetOk_colon_free (hok p hp)
      have hsp : splitCh ':' (joinSep ':' gs) = gs := splitCh_joinSep ':' gs hgsne hfree
      have hne : joinSep ':' gs ≠ [] := ne_nil_of_splitCh_length _ (by rw [hsp]; omega)
      have hemp : (joinSep ':' gs).isEmpty = false := isEmpty_eq_false_of_ne_nil _ hne
      unfold ipv6Ok ipv6Val
      rw [if_neg (by rw [hemp]; simp)]
      dsimp only
      rw [hsp]
      rw [if_neg (by omega)]
      have hdot : '.' ∉ gs.getLastD [] :=
        hextetOk_dot_free (hok _ (getLastD_mem gs hgsne []))
      rw [if_neg hdot]
      exact v6Assemble_full_isSome gs h8 hok
    · -- compressed form without IPv4 suffix
      have hfl : ∀ p ∈ l, ':' ∉ p := fun p hp => hextetOk_colon_free (hl p hp)
      have hfr : ∀ p ∈ r, ':' ∉ p := fun p hp => hextetOk_colon_free (hr p hp)
      have hsp := splitCh_dcolon l r hfl hfr
      have hlp := liftP_length_pos l
      have hrp := liftP_length_pos r
      have hne : joinSep ':' l ++ ':' :: ':' :: joinSep ':' r ≠ [] :=
        ne_nil_of_splitCh_length _ (by rw [hsp]; simp; omega)
      have hemp := isEmpty_eq_false_of_ne_nil _ hne
      unfold ipv6Ok ipv6Val
      rw [if_neg (by rw [hemp]; simp)]
      dsimp only
      rw [hsp]
      rw [if_neg (by simp; omega)]
      have hdot : '.' ∉ (liftP l ++ [[]] ++ liftP r).getLastD [] := by
        rw [show (liftP l ++ [[]] ++ liftP r : List (List Char)) =
          (liftP l ++ [[]]) ++ liftP r from by simp,
          getLastD_append_right _ _ _ (liftP_ne_nil r)]
        by_cases hre : r = []
        · subst hre
          decide
        · have hlr2 : liftP r = r := by
            unfold liftP
            rw [if_neg hre]
          rw [hlr2]
          exact hextetOk_dot_free (hr _ (getLastD_mem r hre []))
      rw [if_neg hdot]
      exact v6Assemble_comp_isSome l r hl hr hlen
    · -- full form with embedded IPv4 suffix
      have hgq : ∀ p ∈ gs ++ [q], ':' ∉ p := by
        intro p hp
        rcases List.mem_append.mp hp with hp | hp
        · exact hextetOk_colon_free (hok p hp)
        · rw [List.mem_singleton.mp hp]
          exact SpecIPv4_colon_free hq4
      have hsp : splitCh ':' (joinSep ':' (gs ++ [q])) = gs ++ [q] :=
        splitCh_joinSep ':' (gs ++ [q]) (by simp) hgq
      have hne : joinSep ':' (gs ++ [q]) ≠ [] :=
        ne_nil_of_splitCh_length _ (by rw [hsp]; simp; omega)
      have hemp := isEmpty_eq_false_of_ne_nil _ hne
      unfold ipv6Ok ipv6Val
      rw [if_neg (by rw [hemp]; simp)]
      dsimp only
      rw [hsp]
      rw [if_neg (by simp; omega)]
      rw [getLastD_concat]
      rw [if_pos (SpecIPv4_has_dot hq4)]
      obtain ⟨v, hv⟩ : ∃ v, ipv4Val q = some v := by
        have hok4 : ipv4Ok q = true := (ipv4Ok_iff_SpecIPv4 q).mpr hq4
        unfold ipv4Ok at hok4
        exact Option.isSome_iff_exists.mp hok4
      rw [hv]
      rw [List.dropLast_concat]
      apply v6Assemble_full_isSome
      · simp
        omega
      · intro p hp
        rcases List.mem_append.mp hp with hp | hp
        · exact hok p hp
        · rcases List.mem_cons.mp hp with rfl | hp
          · exact hextetOk_natHex _ (Nat.mod_lt _ (by norm_num))
          · rw [List.mem_singleton.mp hp]
            exact hextetOk_natHex _ (Nat.mod_lt _ (by norm_num))
    · -- compressed form with embedded IPv4 suffix
      have hfl : ∀ p ∈ l, ':' ∉ p := fun p hp => hextetOk_colon_free (hl p hp)
      have hfrq : ∀ p ∈ r ++ [q], ':' ∉ p := by
        intro p hp
        rcases List.mem_append.mp hp with hp | hp
        · exact hextetOk_colon_free (hr p hp)
        · rw [List.mem_singleton.mp hp]
          exact SpecIPv4_colon_free hq4
      have hsp := splitCh_dcolon l (r ++ [q]) hfl hfrq
      have hlrq : liftP (r ++ [q]) = r ++ [q] := by
        unfold liftP
        rw [if_neg (by simp)]
      rw [hlrq] at hsp
      have hlp := liftP_length_pos l
      have hne : joinSep ':' l ++ ':' :: ':' :: joinSep ':' (r ++ [q]) ≠ [] :=
        ne_nil_of_splitCh_length _ (by rw [hsp]; simp; omega)
      have hemp := isEmpty_eq_false_of_ne_nil _ hne
      unfold ipv6Ok ipv6Val
      rw [if_neg (by rw [hemp]; simp)]
      dsimp only
      rw [hsp]
      rw [if_neg (by simp; omega)]
      have hlastq : (liftP l ++ [[]] ++ (r ++ [q])).getLastD [] = q := by
        rw [show (liftP l ++ [[]] ++ (r ++ [q]) : List (List Char)) =
          (liftP l ++ [[]] ++ r) ++ [q] from by simp, getLastD_concat]
      rw [hlastq]
      rw [if_pos (SpecIPv4_has_dot hq4)]
      obtain ⟨v, hv⟩ : ∃ v, ipv4Val q = some v := by
        have hok4 : ipv4Ok q = true := (ipv4Ok_iff_SpecIPv4 q).mpr hq4
        unfold ipv4Ok at hok4
        exact Option.isSome_iff_exists.mp hok4
      rw [hv]
      dsimp only
      have hdl : (liftP l ++ [[]] ++ (r ++ [q])).dropLast = liftP l ++ [[]] ++ r := by
        rw [show (liftP l ++ [[]] ++ (r ++ [q]) : List (List Char)) =
          (liftP l ++ [[]] ++ r) ++ [q] from by simp, List.dropLast_concat]
      rw [hdl]
      have hshape : (liftP l ++ [[]] ++ r) ++ [natHex (v / 65536 % 65536), natHex (v % 65536)] =
          liftP l ++ [[]] ++
            liftP (r ++ [natHex (v / 65536 % 65536), natHex (v % 65536)]) := by
        rw [show liftP (r ++ [natHex (v / 65536 % 65536), natHex (v % 65536)]) =
          r ++ [natHex (v / 65536 % 65536), natHex (v % 65536)] from by
            unfold liftP
            rw [if_neg (by simp)]]
        simp
      rw [hshape]
      apply v6Assemble_comp_isSome l _ hl
      · intro p hp
        rcases List.mem_append.mp hp with hp | hp
        · exact hr p hp
        · rcases List.mem_cons.mp hp with rfl | hp
          · exact hextetOk_natHex _ (Nat.mod_lt _ (by norm_num))
          · rw [List.mem_singleton.mp hp]
            exact hextetOk_natHex _ (Nat.mod_lt _ (by norm_num))
      · simp
        omega

/-- The two notions agree: the CPython-style validator accepts a string
exactly when it is a grammatically valid IPv4 or IPv6 address. -/
theorem validate_iff_spec (s : String) :
    validate_ip_address s = true ↔ SpecIPv4 s.data ∨ SpecIPv6 s.data := by
  unfold validate_ip_address
  rw [Bool.or_eq_true, ipv4Ok_iff_SpecIPv4, ipv6Ok_iff_SpecIPv6]

theorem digitCh_isHex {c : Char} (h : isDigitCh c = true) : isHexCh c = true := by
  unfold isHexCh
  rw [h]
  rfl

theorem mem_joinSep {sep : Char} {parts : List (List Char)} {c : Char}
    (h : c ∈ joinSep sep parts) : (∃ p ∈ parts, c ∈ p) ∨ c = sep := by
  induction parts with
  | nil => simp [joinSep] at h
  | cons p ps ih =>
    cases ps with
    | nil => exact Or.inl ⟨p, by simp, by simpa [joinSep] using h⟩
    | cons q qs =>
      rw [joinSep_cons _ _ _ (by simp)] at h
      rcases List.mem_append.mp h with h1 | h1
      · exact Or.inl ⟨p, by simp, h1⟩
      · rcases List.mem_cons.mp h1 with rfl | h1
        · exact Or.inr rfl
        · rcases ih h1 with ⟨x, hx, hcx⟩ | h2
          · exact Or.inl ⟨x, List.mem_cons_of_mem p hx, hcx⟩
          · exact Or.inr h2

theorem SpecIPv4_chars_alpha {q : List Char} (h : SpecIPv4 q) :
    ∀ c ∈ q, isHexCh c = true ∨ c = ':' ∨ c = '.' := by
  intro c hc
  rcases SpecIPv4_chars h c hc with h1 | h1
  · exact Or.inl (digitCh_isHex h1)
  · exact Or.inr (Or.inr h1)

theorem SpecIPv6_chars_alpha {cs : List Char} (h : SpecIPv6 cs) :
    ∀ c ∈ cs, isHexCh c = true ∨ c = ':' ∨ c = '.' := by
  have hhx : ∀ (gs : List (List Char)), (∀ g ∈ gs, hextetOk g = true) →
      ∀ c ∈ joinSep ':' gs, isHexCh c = true ∨ c = ':' ∨ c = '.' := by
    intro gs hok c hc
    rcases mem_joinSep hc with ⟨p, hp, hcp⟩ | rfl
    · exact Or.inl (hextetOk_chars (hok p hp) c hcp)
    · exact Or.inr (Or.inl rfl)
  have hmix : ∀ (gs : List (List Char)) (q : List Char),
      (∀ g ∈ gs, hextetOk g = true) → SpecIPv4 q →
      ∀ c ∈ joinSep ':' (gs ++ [q]), isHexCh c = true ∨ c = ':' ∨ c = '.' := by
    intro gs q hok hq c hc
    rcases mem_joinSep hc with ⟨p, hp, hcp⟩ | rfl
    · rcases List.mem_append.mp hp with hp | hp
      · exact Or.inl (hextetOk_chars (hok p hp) c hcp)
      · rw [List.mem_singleton.mp hp] at hcp
        exact SpecIPv4_chars_alpha hq c hcp
    · exact Or.inr (Or.inl rfl)
  rcases h with ⟨gs, _, hok, rfl⟩ | ⟨l, r, hl, hr, _, rfl⟩ |
    ⟨gs, q, _, hok, hq4, rfl⟩ | ⟨l, r, q, hl, hr, _, hq4, rfl⟩
  · exact hhx gs hok
  · intro c hc
    rcases List.mem_append.mp hc with h1 | h1
    · exact hhx l hl c h1
    · rcases List.mem_cons.mp h1 with rfl | h1
      · exact Or.inr (Or.inl rfl)
      · rcases List.mem_cons.mp h1 with rfl | h1
        · exact Or.inr (Or.inl rfl)
        · exact hhx r hr c h1
  · exact hmix gs q hok hq4
  · intro c hc
    rcases List.mem_append.mp hc with h1 | h1
    · exact hhx l hl c h1
    · rcases List.mem_cons.mp h1 with rfl | h1
      · exact Or.inr (Or.inl rfl)
      · rcases List.mem_cons.mp h1 with rfl | h1
        · exact Or.inr (Or.inl rfl)
        · exact hmix r q hr hq4 c h1

/-- A string accepted by the validator consists only of hexadecimal digits,
colons and dots; in particular it contains no shell metacharacter. -/
theorem validate_chars (s : String) (h : validate_ip_address s = true) :
    ∀ c ∈ s.data, isHexCh c = true ∨ c = ':' ∨ c = '.' := by
  rcases (validate_iff_spec s).mp h with h4 | h6
  · exact SpecIPv4_chars_alpha h4
  · exact SpecIPv6_chars_alpha h6

/-! ## Model of `utils.sanitize_input` (utils.py:565-581)

The source removes each character of a deny-list with `str.replace(c, '')`
and then strips surrounding whitespace with `str.strip()`. -/

def dangerous_chars : List Char :=
  [';', '&', '|', '`', '$', '(', ')', '<', '>', '"', '\'', '\\']

/-- One `str.replace(c, '')` step (single-character needle). -/
def removeCh (c : Char) (cs : List Char) : List Char := cs.filter (fun x => x ≠ c)

/-- The `for char in dangerous_chars: sanitized = sanitized.replace(char, '')` loop. -/
def removeDangerous (cs : List Char) : List Char :=
  dangerous_chars.foldl (fun acc c => removeCh c acc) cs

def lstrip (cs : List Char) : List Char := cs.dropWhile isSpaceCh

def rstrip (cs : List Char) : List Char := (cs.reverse.dropWhile isSpaceCh).reverse

/-- Model of `str.strip()` (ASCII whitespace). -/
def pyStrip (cs : List Char) : List Char := rstrip (lstrip cs)

def sanitizeL (cs : List Char) : List Char := pyStrip (removeDangerous cs)

/-- Model of `utils.sanitize_input`. -/
def sanitize_input (s : String) : String := String.mk (sanitizeL s.data)

theorem mem_removeCh {x c : Char} {cs : List Char} (h : x ∈ removeCh c cs) : x ∈ cs :=
  List.mem_of_mem_filter h

theorem not_self_mem_removeCh (c : Char) (cs : List Char) : c ∉ removeCh c cs := by
  intro h
  have := List.of_mem_filter h
  simp at this

theorem removeCh_eq_self {c : Char} {cs : List Char} (h : c ∉ cs) : removeCh c cs = cs := by
  apply List.filter_eq_self.mpr
  intro x hx
  simp only [ne_eq, decide_eq_true_eq, decide_not]
  simp only [Bool.not_eq_true', decide_eq_false_iff_not]
  intro hxc
  exact h (hxc ▸ hx)

theorem mem_foldRemove {x : Char} {L cs : List Char}
    (h : x ∈ L.foldl (fun acc c => removeCh c acc) cs) : x ∈ cs := by
  induction L generalizing cs with
  | nil => exact h
  | cons c L ih => exact mem_removeCh (ih h)

theorem foldRemove_not_mem (L : List Char) (cs : List Char) :
    ∀ c ∈ L, c ∉ L.foldl (fun acc c => removeCh c acc) cs := by
  induction L generalizing cs with
  | nil => simp
  | cons d L ih =>
    intro c hc hmem
    rcases List.mem_cons.mp hc with rfl | hc
    · exact not_self_mem_removeCh c cs (mem_foldRemove hmem)
    · exact ih (removeCh d cs) c hc hmem

theorem foldRemove_eq_self {L cs : List Char} (h : ∀ c ∈ L, c ∉ cs) :
    L.foldl (fun acc c => removeCh c acc) cs = cs := by
  induction L with
  | nil => rfl
  | cons d L ih =>
    show L.foldl _ (removeCh d cs) = cs
    rw [removeCh_eq_self (h d (by simp))]
    exact ih (fun c hc => h c (List.mem_cons_of_mem d hc))

theorem mem_lstrip {x : Char} {cs : List Char} (h : x ∈ lstrip cs) : x ∈ cs := by
  unfold lstrip at h
  induction cs with
  | nil => exact h
  | cons a t ih =>
    rw [List.dropWhile_cons] at h
    split at h
    · exact List.mem_cons_of_mem a (ih h)
    · exact h

theorem mem_rstrip {x : Char} {cs : List Char} (h : x ∈ rstrip cs) : x ∈ cs := by
  unfold rstrip at h
  rw [List.mem_reverse] at h
  have := @mem_lstrip x cs.reverse h
  rwa [List.mem_reverse] at this

theorem mem_pyStrip {x : Char} {cs : List Char} (h : x ∈ pyStrip cs) : x ∈ cs :=
  mem_lstrip (mem_rstrip h)

theorem head_dropWhile_false (p : Char → Bool) (cs : List Char) {c : Char}
    (h : (cs.dropWhile p).head? = some c) : p c = false := by
  induction cs with
  | nil => simp at h
  | cons a t ih =>
    rw [List.dropWhile_cons] at h
    split at h
    · exact ih h
    · rename_i hpa
      simp only [List.head?_cons, Option.some.injEq] at h
      subst h
      simpa using hpa

theorem dropWhile_idem (p : Char → Bool) (cs : List Char) :
    (cs.dropWhile p).dropWhile p = cs.dropWhile p := by
  induction cs with
  | nil => rfl
  | cons a t ih =>
    rw [List.dropWhile_cons]
    split
    · exact ih
    · rename_i hpa
      rw [List.dropWhile_cons, if_neg hpa]

theorem exists_dropWhile_prefix (p : Char → Bool) (cs : List Char) :
    ∃ t, cs = t ++ cs.dropWhile p := by
  induction cs with
  | nil => exact ⟨[], rfl⟩
  | cons a t ih =>
    rw [List.dropWhile_cons]
    split
    · obtain ⟨u, hu⟩ := ih
      exact ⟨a :: u, by rw [List.cons_append, ← hu]⟩
    · exact ⟨[], rfl⟩

theorem rstrip_prefix (cs : List Char) : ∃ t, cs = rstrip cs ++ t := by
  obtain ⟨u, hu⟩ := exists_dropWhile_prefix isSpaceCh cs.reverse
  refine ⟨u.reverse, ?_⟩
  have := congrArg List.reverse hu
  rw [List.reverse_reverse, List.reverse_append] at this
  exact this

theorem head_rstrip {cs : List Char} {c : Char} (h : (rstrip cs).head? = some c) :
    cs.head? = some c := by
  obtain ⟨t, ht⟩ := rstrip_prefix cs
  rw [ht]
  cases hr : rstrip cs with
  | nil => rw [hr] at h; simp at h
  | cons a u =>
    rw [hr] at h
    simp only [List.head?_cons, Option.some.injEq] at h
    subst h
    rfl

theorem lstrip_rstrip_lstrip (cs : List Char) :
    lstrip (rstrip (lstrip cs)) = rstrip (lstrip cs) := by
  cases hr : rstrip (lstrip cs) with
  | nil => rfl
  | cons a u =>
    have hhead : (rstrip (lstrip cs)).head? = some a := by rw [hr]; rfl
    have h2 : (lstrip cs).head? = some a := head_rstrip hhead
    have h3 : isSpaceCh a = false := head_dropWhile_false isSpaceCh cs h2
    show List.dropWhile isSpaceCh (a :: u) = a :: u
    rw [List.dropWhile_cons, if_neg (by simp [h3])]

theorem rstrip_idem (cs : List Char) : rstrip (rstrip cs) = rstrip cs := by
  unfold rstrip
  rw [List.reverse_reverse, dropWhile_idem]

theorem pyStrip_idem (cs : List Char) : pyStrip (pyStrip cs) = pyStrip cs := by
  unfold pyStrip
  rw [lstrip_rstrip_lstrip, rstrip_idem]

theorem sanitizeL_no_dangerous (cs : List Char) :
    ∀ c ∈ dangerous_chars, c ∉ sanitizeL cs := by
  intro c hc hmem
  exact foldRemove_not_mem dangerous_chars cs c hc (mem_pyStrip hmem)

theorem sanitizeL_idem (cs : List Char) : sanitizeL (sanitizeL cs) = sanitizeL cs := by
  unfold sanitizeL
  rw [show removeDangerous (pyStrip (removeDangerous cs)) =
    pyStrip (removeDangerous cs) from foldRemove_eq_self
      (fun c hc hmem => foldRemove_not_mem dangerous_chars cs c hc (mem_pyStrip hmem))]
  exact pyStrip_idem (removeDangerous cs)

theorem sanitizeL_head_not_space (cs : List Char) {c : Char}
    (h : (sanitizeL cs).head? = some c) : isSpaceCh c = false := by
  unfold sanitizeL pyStrip at h
  exact head_dropWhile_false isSpaceCh (removeDangerous cs) (head_rstrip h)

theorem sanitizeL_last_not_space (cs : List Char) {c : Char}
    (h : (sanitizeL cs).getLast? = some c) : isSpaceCh c = false := by
  unfold sanitizeL pyStrip rstrip at h
  rw [← List.head?_reverse, List.reverse_reverse] at h
  exact head_dropWhile_false isSpaceCh (lstrip (removeDangerous cs)).reverse h

/-! ## Model of `Fail2banManager` (fail2ban_manager.py)

`subprocess` calls go through `utils.safe_execute_command`; they are modelled
by an oracle `Exec` mapping each argv vector to its `(success, stdout,
stderr)` outcome, and every function additionally returns the list of argv
vectors it passed to the oracle, in order. -/

/-- `config.FAIL2BAN_CLIENT_PATH` (config.py). -/
def FAIL2BAN_CLIENT_PATH : String := "/usr/bin/fail2ban-client"

/-- Result of one `utils.safe_execute_command` call. -/
structure ExecOut where
  ok : Bool
  out : String
  err : String

def Exec : Type := List String → ExecOut

/-- Model of Python `str(i)` for an int. -/
def intStr (i : Int) : String := toString i

/-- Model of `Fail2banManager.ban_ip` (fail2ban_manager.py:165-191). -/
def ban_ip (ex : Exec) (jail_name ip_address : String) :
    (Bool × String) × List (List String) :=
  if validate_ip_address ip_address then
    let jail := sanitize_input jail_name
    let ip := sanitize_input ip_address
    let cmd := [FAIL2BAN_CLIENT_PATH, "set", jail, "banip", ip]
    let r := ex cmd
    if r.ok then
      ((true, "Successfully banned " ++ ip ++ " in jail " ++ jail), [cmd])
    else
      ((false, if r.err = "" then "Failed to ban " ++ ip else r.err), [cmd])
  else
    ((false, "Invalid IP address format"), [])

/-- Model of `Fail2banManager.ban_ip_with_time` (fail2ban_manager.py:193-235).
The outcome of the `bantime` command is discarded by the source; success is
decided by the `banip` command alone. -/
def ban_ip_with_time (ex : Exec) (jail_name ip_address : String) (ban_time : Int) :
    (Bool × String) × List (List String) :=
  if validate_ip_address ip_address then
    let jail := sanitize_input jail_name
    let ip := sanitize_input ip_address
    if ban_time = -1 then
      let cmd1 := [FAIL2BAN_CLIENT_PATH, "set", jail, "bantime", "-1"]
      let cmd2 := [FAIL2BAN_CLIENT_PATH, "set", jail, "banip", ip]
      let r := ex cmd2
      if r.ok then
        ((true, "Successfully banned " ++ ip ++ " permanently in jail " ++ jail),
          [cmd1, cmd2])
      else
        ((false, if r.err = "" then "Failed to ban " ++ ip else r.err), [cmd1, cmd2])
    else
      let cmd1 := [FAIL2BAN_CLIENT_PATH, "set", jail, "bantime", intStr ban_time]
      let cmd2 := [FAIL2BAN_CLIENT_PATH, "set", jail, "banip", ip]
      let r := ex cmd2
      if r.ok then
        ((true, "Successfully banned " ++ ip ++ " for " ++ intStr ban_time ++
          " seconds in jail " ++ jail), [cmd1, cmd2])
      else
        ((false, if r.err = "" then "Failed to ban " ++ ip else r.err), [cmd1, cmd2])
  else
    ((false, "Invalid IP address format"), [])

/-- Model of `Fail2banManager.unban_ip` (fail2ban_manager.py:237-263). -/
def unban_ip (ex : Exec) (jail_name ip_address : String) :
    (Bool × String) × List (List String) :=
  if validate_ip_address ip_address then
    let jail := sanitize_input jail_name
    let ip := sanitize_input ip_address
    let cmd := [FAIL2BAN_CLIENT_PATH, "set", jail, "unbanip", ip]
    let r := ex cmd
    if r.ok then
      ((true, "Successfully unbanned " ++ ip ++ " from jail " ++ jail), [cmd])
    else
      ((false, if r.err = "" then "Failed to unban " ++ ip else r.err), [cmd])
  else
    ((false, "Invalid IP address format"), [])

/-- Enforcement-side state: the per-jail `bantime` configuration, as
affected by `fail2ban-client set <jail> bantime <t>`. -/
structure EnfState where
  bantime : String → String

/-- Semantics of one issued command on the enforcement state. -/
def applyCmd (s : EnfState) (cmd : List String) : EnfState :=
  match cmd with
  | [_, "set", jail, "bantime", v] =>
    ⟨fun j => if j = jail then v else s.bantime j⟩
  | _ => s

def applyCmds (s : EnfState) (cmds : List (List String)) : EnfState :=
  cmds.foldl applyCmd s

/-! ## Model of `Fail2banManager.get_jail_status` (fail2ban_manager.py:57-123) -/

/-- `line.split(':', 1)[1]` (used only on lines containing a colon). -/
def afterFirst (sep : Char) : List Char → List Char
  | [] => []
  | c :: cs => if c = sep then cs else afterFirst sep cs

/-- `int(re.search(r'\d+', line).group())`: the first maximal digit run,
or `none` when the line has no digit (in the source this raises and is
swallowed by the bare `except`). -/
def firstDigitRun : List Char → Option (List Char)
  | [] => none
  | c :: cs =>
    if isDigitCh c then some (c :: cs.takeWhile isDigitCh) else firstDigitRun cs

def searchInt (cs : List Char) : Option Nat := (firstDigitRun cs).map decVal

/-- Python `str.split()` with no argument: whitespace runs, no empty parts. -/
def splitWs : List Char → List (List Char)
  | [] => []
  | c :: cs =>
    if isSpaceCh c then splitWs cs
    else (c :: cs.takeWhile (fun x => !isSpaceCh x)) ::
      splitWs (cs.dropWhile (fun x => !isSpaceCh x))
termination_by cs => cs.length
decreasing_by
  · simp
  · simp only [List.length_cons]
    have := (@List.dropWhile_sublist Char cs (fun x => !isSpaceCh x)).length_le
    omega

/-- `[x.strip() for x in s.split(sep) if x.strip()]`. -/
def parseListStr (sep : Char) (cs : List Char) : List (List Char) :=
  ((splitCh sep cs).map pyStrip).filter (fun p => !p.isEmpty)

structure JailStatus where
  name : String
  enabled : Bool
  error : Option String
  filter : List Char
  actions : List (List Char)
  currently_failed : Nat
  total_failed : Nat
  currently_banned : Nat
  total_banned : Nat
  banned_ips : List (List Char)
deriving DecidableEq

def initStatus (name : String) : JailStatus :=
  ⟨name, true, none, [], [], 0, 0, 0, 0, []⟩

/-- One iteration of the line loop of `get_jail_status`, mirroring the
`elif` chain of the source. -/
def updateLine (st : JailStatus) (line0 : List Char) : JailStatus :=
  let line := pyStrip line0
  if containsSub line ("Filter".data) && containsSub line (":".data) then
    { st with filter := pyStrip (afterFirst ':' line) }
  else if containsSub line ("Actions".data) && containsSub line (":".data) then
    { st with actions := parseListStr ',' (afterFirst ':' line) }
  else if containsSub line ("Currently failed:".data) then
    match searchInt line with
    | some n => { st with currently_failed := n }
    | none => st
  else if containsSub line ("Total failed:".data) then
    match searchInt line with
    | some n => { st with total_failed := n }
    | none => st
  else if containsSub line ("Currently banned:".data) then
    match searchInt line with
    | some n => { st with currently_banned := n }
    | none => st
  else if containsSub line ("Total banned:".data) then
    match searchInt line with
    | some n => { st with total_banned := n }
    | none => st
  else if containsSub line ("Banned IP list:".data) then
    let ips_str := pyStrip (afterFirst ':' line)
    if ips_str.isEmpty then st
    else { st with banned_ips :=
      ((splitWs ips_str).map pyStrip).filter (fun p => !p.isEmpty) }
  else st

/-- The parsing part of `get_jail_status` applied to the captured stdout. -/
def get_jail_status_parse (name : String) (stdout : List Char) : JailStatus :=
  (splitCh '\n' stdout).foldl updateLine (initStatus name)

/-- Model of `Fail2banManager.get_jail_status`: on command failure the
source returns only `name`/`enabled`/`error`; here the remaining fields
hold their defaults. -/
def get_jail_status (ex : Exec) (jail_name : String) : JailStatus :=
  let r := ex [FAIL2BAN_CLIENT_PATH, "status", jail_name]
  if r.ok then
    get_jail_status_parse jail_name r.out.data
  else
    { initStatus jail_name with
      enabled := false,
      error := some (if r.err = "" then "Failed to get jail status" else r.err) }

/-! ## Model of `utils.get_ip_geolocation` (utils.py:35-103)

The `requests.get` call is modelled by an oracle `Option ApiResp` (`none`
covers a raised exception); the module-level caches `_geolocation_cache`
and `_cache_timestamps` are one association list passed and returned
explicitly; timestamps are `Nat` seconds. The returned `Bool` records
whether an outbound request was performed. -/

/-- CPython `_IPv4Constants._private_networks` (Python 3.11), as
`(network_address, prefixlen)` pairs. -/
def v4PrivateNets : List (Nat × Nat) :=
  [(0x00000000, 8), (0x0A000000, 8), (0x7F000000, 8), (0xA9FE0000, 16),
   (0xAC100000, 12), (0xC0000000, 29), (0xC00000AA, 31), (0xC0000200, 24),
   (0xC0A80000, 16), (0xC6120000, 15), (0xC6336400, 24), (0xCB007100, 24),
   (0xF0000000, 4), (0xFFFFFFFF, 32)]

/-- CPython `_IPv6Constants._private_networks` (Python 3.11). -/
def v6PrivateNets : List (Nat × Nat) :=
  [(1, 128), (0, 128), (0xffff * 2 ^ 32, 96), (0x100 * 2 ^ 112, 64),
   (0x2001 * 2 ^ 112, 23), (0x2001 * 2 ^ 112 + 2 * 2 ^ 96, 48),
   (0x2001 * 2 ^ 112 + 0xdb8 * 2 ^ 96, 32),
   (0x2001 * 2 ^ 112 + 0x10 * 2 ^ 96, 28),
   (0xfc00 * 2 ^ 112, 7), (0xfe80 * 2 ^ 112, 10)]

/-- `addr in network` for a width-bit address. -/
def inNet (width v net plen : Nat) : Bool :=
  v / 2 ^ (width - plen) = net / 2 ^ (width - plen)

/-- CPython `ip_address(s).is_private` (IPv4 tried first, as in
`ip_address`); `false` when `s` is not an IP address at all. -/
def is_private (cs : List Char) : Bool :=
  match ipv4Val cs with
  | some v => v4PrivateNets.any (fun e => inNet 32 v e.1 e.2)
  | none =>
    match ipv6Val cs with
    | some v => v6PrivateNets.any (fun e => inNet 128 v e.1 e.2)
    | none => false

structure GeoInfo where
  country : String
  region : String
  city : String
  isp : String
  org : String
  lat : Int
  lon : Int
  timezone : String
deriving DecidableEq

/-- The local-network sentinel built in the private branch (utils.py:59-68). -/
def localGeo : GeoInfo :=
  ⟨"Réseau Local", "Réseau Privé", "LAN", "Réseau Local", "Réseau Privé",
   0, 0, "Local"⟩

/-- `utils.get_default_geo_info` (utils.py:105-121). -/
def get_default_geo_info : GeoInfo :=
  ⟨"Non disponible", "Non disponible", "Non disponible", "Non disponible",
   "Non disponible", 0, 0, "Non disponible"⟩

/-- One `requests.get` outcome: HTTP status plus the JSON fields read by
the source. A `none` field covers both an absent key and JSON `null`;
an empty string is falsy under Python `or`, handled in `orDefault`. -/
structure ApiResp where
  status_code : Nat
  success : Bool
  country : Option String
  regionName : Option String
  city : Option String
  isp : Option String
  org : Option String
  timezone : Option String
  lat : Option Int
  lon : Option Int

/-- `data.get(k) or 'Non déterminé'`. -/
def orDefault (o : Option String) : String :=
  match o with
  | some s => if s = "" then "Non déterminé" else s
  | none => "Non déterminé"

abbrev GeoCache : Type := List (String × GeoInfo × Nat)

def cacheLookup (cache : GeoCache) (ip : String) : Option (GeoInfo × Nat) :=
  (List.find? (fun e => e.1 = ip) cache).map (fun e => e.2)

def cacheInsert (cache : GeoCache) (ip : String) (info : GeoInfo) (t : Nat) :
    GeoCache :=
  (ip, info, t) :: cache

/-- The part of `get_ip_geolocation` after the cache check: private
short-circuit, then the API call with its fall-through default. -/
def geoFetch (net : Option ApiResp) (now : Nat) (cache : GeoCache) (ip : String) :
    GeoInfo × GeoCache × Bool :=
  if is_private ip.data then
    (localGeo, cacheInsert cache ip localGeo now, false)
  else
    match net with
    | some r =>
      if r.status_code = 200 && r.success then
        let g : GeoInfo :=
          ⟨orDefault r.country, orDefault r.regionName, orDefault r.city,
           orDefault r.isp, orDefault r.org, r.lat.getD 0, r.lon.getD 0,
           orDefault r.timezone⟩
        (g, cacheInsert cache ip g now, true)
      else
        (get_default_geo_info, cacheInsert cache ip get_default_geo_info now, true)
    | none =>
      (get_default_geo_info, cacheInsert cache ip get_default_geo_info now, true)

/-- Model of `utils.get_ip_geolocation`. -/
def get_ip_geolocation (net : Option ApiResp) (now : Nat) (cache : GeoCache)
    (ip : String) : GeoInfo × GeoCache × Bool :=
  if validate_ip_address ip then
    match cacheLookup cache ip with
    | some p =>
      if now - p.2 < 3600 then (p.1, cache, false)
      else geoFetch net now cache ip
    | none => geoFetch net now cache ip
  else
    (get_default_geo_info, cache, false)

/-! ## A model of the `re` patterns used by the log parsers (utils.py)

The patterns of `parse_log_line` and `parse_ssh_log_line` use only literal
characters, the classes `\\d` `\\w` `\\s` `.`, counted or unbounded greedy
repetition, capturing groups, and one optional non-capturing group
`(?:invalid user )?`.  A pattern is a `List Tok`; `matchToksF` returns
every way the token list can match a prefix of the string, as
`(remaining suffix, captures)` pairs, in Python's backtracking preference
order (greedy repetition longest first, optional group present first), so
the head of the list is the match `re` reports.  The classes are the ASCII
ones, which on ASCII input agree with Python's defaults.  Recursion depth
is bounded by the fuel, which `matchToks` sets to `listFuel toks`, an upper
bound on the token nesting of the pattern (the depth never depends on the
subject string), so the fuel never expires. -/

inductive CClass
  | digit
  | word
  | space
  | dot
deriving DecidableEq

/-- `.` in Python `re` matches anything but a newline (no `re.DOTALL`). -/
def matchCls : CClass → Char → Bool
  | .digit, ch => isDigitCh ch
  | .word, ch => isWordCh ch
  | .space, ch => isSpaceCh ch
  | .dot, ch => ch.toNat ≠ 10

inductive Tok
  | lit (c : Char)
  | rep (c : CClass) (lo : Nat) (hi : Option Nat)
  | grp (n : Nat) (ts : List Tok)
  | opt (ts : List Tok)

abbrev Captures : Type := List (Nat × List Char)

mutual

def tokFuel : Tok → Nat
  | Tok.lit _ => 1
  | Tok.rep _ _ _ => 1
  | Tok.grp _ g => 1 + listFuel g
  | Tok.opt g => 1 + listFuel g

def listFuel : List Tok → Nat
  | [] => 1
  | t :: ts => tokFuel t + listFuel ts

end

def matchToksF : Nat → List Tok → List Char → List (List Char × Captures)
  | 0, _, _ => []
  | _ + 1, [], s => [(s, [])]
  | f + 1, Tok.lit ch :: ts, s =>
    match s with
    | [] => []
    | x :: xs => if x = ch then matchToksF f ts xs else []
  | f + 1, Tok.rep c lo hi :: ts, s =>
    let pre := (s.takeWhile (matchCls c)).length
    let top := match hi with | some h => min pre h | none => pre
    if top < lo then []
    else ((List.range (top - lo + 1)).map (fun i => top - i)).flatMap
      (fun k => matchToksF f ts (s.drop k))
  | f + 1, Tok.grp n g :: ts, s =>
    (matchToksF f g s).flatMap (fun p =>
      (matchToksF f ts p.1).map (fun q =>
        (q.1, p.2 ++ (n, s.take (s.length - p.1.length)) :: q.2)))
  | f + 1, Tok.opt g :: ts, s =>
    (matchToksF f g s).flatMap (fun p =>
      (matchToksF f ts p.1).map (fun q => (q.1, p.2 ++ q.2)))
    ++ matchToksF f ts s

def matchToks (toks : List Tok) (s : List Char) : List (List Char × Captures) :=
  matchToksF (listFuel toks) toks s

/-- `re.search`: the leftmost start position with a match wins; at one
position the head of `matchToks` is the preferred match. -/
def searchAux (p : List Tok) : List Char → Option Captures
  | [] =>
    match matchToks p [] with
    | q :: _ => some q.2
    | [] => none
  | c :: cs =>
    match matchToks p (c :: cs) with
    | q :: _ => some q.2
    | [] => searchAux p cs

def reSearch (p : List Tok) (s : List Char) : Option Captures := searchAux p s

/-- `match.group(n)` (every group of the patterns below participates in
every match of its pattern). -/
def group (caps : Captures) (n : Nat) : List Char :=
  ((List.find? (fun e => e.1 = n) caps).map (fun e => e.2)).getD []

def lits (s : String) : List Tok := s.data.map Tok.lit

/-- `(\\d+\\.\\d+\\.\\d+\\.\\d+)`, the body of each IP capture group. -/
def quadPat : List Tok :=
  [Tok.rep .digit 1 none, Tok.lit '.', Tok.rep .digit 1 none, Tok.lit '.',
   Tok.rep .digit 1 none, Tok.lit '.', Tok.rep .digit 1 none]

/-- `(\\d{4}-\\d{2}-\\d{2} \\d{2}:\\d{2}:\\d{2},\\d{3})`. -/
def tsPat : List Tok :=
  [Tok.rep .digit 4 (some 4), Tok.lit '-', Tok.rep .digit 2 (some 2), Tok.lit '-',
   Tok.rep .digit 2 (some 2), Tok.lit ' ', Tok.rep .digit 2 (some 2), Tok.lit ':',
   Tok.rep .digit 2 (some 2), Tok.lit ':', Tok.rep .digit 2 (some 2), Tok.lit ',',
   Tok.rep .digit 3 (some 3)]

/-- The three patterns of `parse_log_line` (utils.py:167-171), which differ
only in the keyword `BAN` / `UNBAN` / `Found`. -/
def banPat (kw : String) : List Tok :=
  Tok.grp 1 tsPat :: Tok.rep .dot 0 none :: Tok.lit '[' ::
    Tok.grp 2 [Tok.rep .word 1 none] :: (lits ("] " ++ kw ++ " ") ++ [Tok.grp 3 quadPat])

structure LogEntry where
  timestamp : List Char
  jail : List Char
  ip : List Char
  action : String
  raw_line : String
deriving DecidableEq

/-- Model of `utils.parse_log_line` (utils.py:156-184): the three patterns
tried in dict order `ban`, `unban`, `found`. -/
def parse_log_line (line : String) : Option LogEntry :=
  match reSearch (banPat "BAN") line.data with
  | some caps => some ⟨group caps 1, group caps 2, group caps 3, "ban", line⟩
  | none =>
    match reSearch (banPat "UNBAN") line.data with
    | some caps => some ⟨group caps 1, group caps 2, group caps 3, "unban", line⟩
    | none =>
      match reSearch (banPat "Found") line.data with
      | some caps => some ⟨group caps 1, group caps 2, group caps 3, "found", line⟩
      | none => none

/-- `(\\w{3}\\s+\\d{1,2}\\s+\\d{2}:\\d{2}:\\d{2})`, the syslog timestamp. -/
def syslogTs : List Tok :=
  [Tok.rep .word 3 (some 3), Tok.rep .space 1 none, Tok.rep .digit 1 (some 2),
   Tok.rep .space 1 none, Tok.rep .digit 2 (some 2), Tok.lit ':',
   Tok.rep .digit 2 (some 2), Tok.lit ':', Tok.rep .digit 2 (some 2)]

/-- `(\\d{4}-\\d{2}-\\d{2}T\\d{2}:\\d{2}:\\d{2})`, the ISO timestamp. -/
def isoTs : List Tok :=
  [Tok.rep .digit 4 (some 4), Tok.lit '-', Tok.rep .digit 2 (some 2), Tok.lit '-',
   Tok.rep .digit 2 (some 2), Tok.lit 'T', Tok.rep .digit 2 (some 2), Tok.lit ':',
   Tok.rep .digit 2 (some 2), Tok.lit ':', Tok.rep .digit 2 (some 2)]

def wordGrp (n : Nat) : Tok := Tok.grp n [Tok.rep .word 1 none]

def acceptedTail : List Tok :=
  lits "Accepted " ++ [Tok.rep .word 1 none] ++ lits " for " ++ [wordGrp 2] ++
    lits " from " ++ [Tok.grp 3 quadPat]

def failedPwTail : List Tok :=
  lits "Failed password for " ++ [Tok.opt (lits "invalid user ")] ++ [wordGrp 2] ++
    lits " from " ++ [Tok.grp 3 quadPat]

def failedTail : List Tok :=
  lits "Failed " ++ [Tok.rep .word 1 none] ++ lits " for " ++
    [Tok.opt (lits "invalid user ")] ++ [wordGrp 2] ++ lits " from " ++
    [Tok.grp 3 quadPat]

/-- `authentication failure.*rhost=(quad).*user=(\\w+)`: here group 2 is
the IP and group 3 the user. -/
def authFailTail : List Tok :=
  lits "authentication failure" ++ [Tok.rep .dot 0 none] ++ lits "rhost=" ++
    [Tok.grp 2 quadPat] ++ [Tok.rep .dot 0 none] ++ lits "user=" ++ [wordGrp 3]

def invalidUserTail : List Tok :=
  lits "Invalid user " ++ [wordGrp 2] ++ lits " from " ++ [Tok.grp 3 quadPat]

/-- `POSSIBLE BREAK-IN ATTEMPT.*from (quad)`: group 2 is the IP. -/
def breakInTail : List Tok :=
  lits "POSSIBLE BREAK-IN ATTEMPT" ++ [Tok.rep .dot 0 none] ++ lits "from " ++
    [Tok.grp 2 quadPat]

def disconnectTail : List Tok :=
  lits "Disconnected from " ++ [Tok.opt (lits "invalid user ")] ++ [wordGrp 2] ++
    [Tok.lit ' '] ++ [Tok.grp 3 quadPat]

/-- `(ts).*sshd.*<tail>`: every SSH pattern shares this shape. -/
def sshPat (ts tail : List Tok) : List Tok :=
  Tok.grp 1 ts :: Tok.rep .dot 0 none :: (lits "sshd" ++ (Tok.rep .dot 0 none :: tail))

/-- The patterns dict of `parse_ssh_log_line` (utils.py:291-318), flattened
in Python's dict-then-list iteration order. -/
def sshPatterns : List (String × List Tok) :=
  [("accepted", sshPat syslogTs acceptedTail), ("accepted", sshPat isoTs acceptedTail),
   ("failed_password", sshPat syslogTs failedPwTail),
   ("failed_password", sshPat isoTs failedPwTail),
   ("failed", sshPat syslogTs failedTail), ("failed", sshPat isoTs failedTail),
   ("failed", sshPat syslogTs authFailTail),
   ("invalid_user", sshPat syslogTs invalidUserTail),
   ("invalid_user", sshPat isoTs invalidUserTail),
   ("break_in", sshPat syslogTs breakInTail), ("break_in", sshPat isoTs breakInTail),
   ("disconnect", sshPat syslogTs disconnectTail),
   ("disconnect", sshPat isoTs disconnectTail)]

structure SshEntry where
  timestamp : List Char
  user : List Char
  ip : List Char
  action : String
  failure_type : Option String
  raw_line : String
deriving DecidableEq

def findSsh : List (String × List Tok) → List Char → Option (String × Captures)
  | [], _ => none
  | (a, p) :: rest, s =>
    match reSearch p s with
    | some caps => some (a, caps)
    | none => findSsh rest s

/-- The result construction of `parse_ssh_log_line` (utils.py:320-356),
with its `break_in`, crossed `failed`/`authentication failure`, and
`failed_password` special cases. -/
def sshResult (line : String) (action : String) (caps : Captures) : SshEntry :=
  if action = "break_in" then
    ⟨group caps 1, "unknown".data, group caps 2, action, none, line⟩
  else if action = "failed" && containsSub line.data ("authentication failure".data) then
    ⟨group caps 1, group caps 3, group caps 2, action, none, line⟩
  else if action = "failed_password" then
    ⟨group caps 1, group caps 2, group caps 3, action,
      some "Mot de passe incorrect", line⟩
  else
    ⟨group caps 1, group caps 2, group caps 3, action, none, line⟩

/-- Model of `utils.parse_ssh_log_line` (utils.py:276-358). -/
def parse_ssh_log_line (line : String) : Option SshEntry :=
  if containsSub line.data ("sshd".data) then
    match findSsh sshPatterns line.data with
    | some r => some (sshResult line r.1 r.2)
    | none => none
  else none

/-- `Accepts toks cs caps`: the token list matches the string `cs` exactly,
producing the capture list `caps`, under Python's semantics (any
backtracking choice, not only the preferred one). -/
inductive Accepts : List Tok → List Char → Captures → Prop
  | nil : Accepts [] [] []
  | lit {c : Char} {ts : List Tok} {cs : List Char} {caps : Captures} :
      Accepts ts cs caps → Accepts (Tok.lit c :: ts) (c :: cs) caps
  | rep {c : CClass} {lo : Nat} {hi : Option Nat} {ts : List Tok}
      {taken cs : List Char} {caps : Captures} :
      (∀ x ∈ taken, matchCls c x = true) → lo ≤ taken.length →
      (∀ h, hi = some h → taken.length ≤ h) →
      Accepts ts cs caps → Accepts (Tok.rep c lo hi :: ts) (taken ++ cs) caps
  | grp {n : Nat} {g ts : List Tok} {gc cs : List Char} {gcaps caps : Captures} :
      Accepts g gc gcaps → Accepts ts cs caps →
      Accepts (Tok.grp n g :: ts) (gc ++ cs) (gcaps ++ (n, gc) :: caps)
  | optY {g ts : List Tok} {gc cs : List Char} {gcaps caps : Captures} :
      Accepts g gc gcaps → Accepts ts cs caps →
      Accepts (Tok.opt g :: ts) (gc ++ cs) (gcaps ++ caps)
  | optN {g ts : List Tok} {cs : List Char} {caps : Captures} :
      Accepts ts cs caps → Accepts (Tok.opt g :: ts) cs caps

theorem takeWhile_take_all {p : Char → Bool} {s : List Char} {k : Nat}
    (hk : k ≤ (s.takeWhile p).length) : ∀ x ∈ s.take k, p x = true := by
  intro x hx
  have h1 : s.take k = (s.takeWhile p).take k := by
    obtain ⟨t, ht⟩ := @List.takeWhile_prefix Char s p
    conv_lhs => rw [← ht]
    rw [List.take_append_of_le_length hk]
  rw [h1] at hx
  exact List.mem_takeWhile_imp (List.mem_of_mem_take hx)

/-- Engine soundness: every `(suffix, captures)` pair the engine returns
comes from a genuine match of a prefix. -/
theorem matchToksF_sound (f : Nat) :
    ∀ toks s r caps, (r, caps) ∈ matchToksF f toks s →
      ∃ pre, s = pre ++ r ∧ Accepts toks pre caps := by
  induction f with
  | zero => intro toks s r caps h; simp [matchToksF] at h
  | succ f ih =>
    intro toks s r caps h
    match toks with
    | [] =>
      simp only [matchToksF, List.mem_singleton, Prod.mk.injEq] at h
      exact ⟨[], by simp [h.1], h.2 ▸ Accepts.nil⟩
    | Tok.lit ch :: ts =>
      match s with
      | [] => simp [matchToksF] at h
      | x :: xs =>
        simp only [matchToksF] at h
        by_cases hx : x = ch
        · rw [if_pos hx] at h
          obtain ⟨pre, hpre, hacc⟩ := ih ts xs r caps h
          exact ⟨x :: pre, by simp [hpre], hx ▸ Accepts.lit hacc⟩
        · rw [if_neg hx] at h; simp at h
    | Tok.rep c lo hi :: ts =>
      rcases hi with _ | hb
      · simp only [matchToksF] at h
        split at h
        · simp at h
        · rename_i hcond
          simp only [List.mem_flatMap, List.mem_map, List.mem_range] at h
          obtain ⟨k, ⟨i, hi2, hik⟩, hmem⟩ := h
          obtain ⟨pre, hpre, hacc⟩ := ih ts (s.drop k) r caps hmem
          have hktw : k ≤ (s.takeWhile (matchCls c)).length := by omega
          refine ⟨s.take k ++ pre, ?_, ?_⟩
          · rw [List.append_assoc, ← hpre, List.take_append_drop]
          · refine Accepts.rep (takeWhile_take_all hktw) ?_ ?_ hacc
            · have : (s.takeWhile (matchCls c)).length ≤ s.length :=
                (List.takeWhile_sublist _).length_le
              rw [List.length_take]
              omega
            · intro h' hh'
              simp at hh'
      · simp only [matchToksF] at h
        split at h
        · simp at h
        · rename_i hcond
          simp only [List.mem_flatMap, List.mem_map, List.mem_range] at h
          obtain ⟨k, ⟨i, hi2, hik⟩, hmem⟩ := h
          obtain ⟨pre, hpre, hacc⟩ := ih ts (s.drop k) r caps hmem
          have hktw : k ≤ (s.takeWhile (matchCls c)).length := by omega
          refine ⟨s.take k ++ pre, ?_, ?_⟩
          · rw [List.append_assoc, ← hpre, List.take_append_drop]
          · refine Accepts.rep (takeWhile_take_all hktw) ?_ ?_ hacc
            · have : (s.takeWhile (matchCls c)).length ≤ s.length :=
                (List.takeWhile_sublist _).length_le
              rw [List.length_take]
              omega
            · intro h' hh'
              have hbh : hb = h' := by simpa using hh'
              rw [List.length_take]
              omega
    | Tok.grp n g :: ts =>
      simp only [matchToksF, List.mem_flatMap, List.mem_map] at h
      obtain ⟨p, hp, q, hq, heq⟩ := h
      obtain ⟨preg, hpreg, haccg⟩ := ih g s p.1 p.2 (by simpa using hp)
      obtain ⟨pre2, hpre2, hacc2⟩ := ih ts p.1 q.1 q.2 (by simpa using hq)
      have hlen : s.length - p.1.length = preg.length := by
        rw [hpreg]; simp
      have htake : s.take (s.length - p.1.length) = preg := by
        rw [hlen, hpreg, List.take_left]
      obtain ⟨heq1, heq2⟩ := Prod.mk.injEq .. ▸ heq
      refine ⟨preg ++ pre2, ?_, ?_⟩
      · rw [hpreg, hpre2, ← heq1, List.append_assoc]
      · rw [← heq2, htake]
        exact Accepts.grp haccg hacc2
    | Tok.opt g :: ts =>
      simp only [matchToksF, List.mem_append, List.mem_flatMap, List.mem_map] at h
      rcases h with ⟨p, hp, q, hq, heq⟩ | h
      · obtain ⟨preg, hpreg, haccg⟩ := ih g s p.1 p.2 (by simpa using hp)
        obtain ⟨pre2, hpre2, hacc2⟩ := ih ts p.1 q.1 q.2 (by simpa using hq)
        obtain ⟨heq1, heq2⟩ := Prod.mk.injEq .. ▸ heq
        refine ⟨preg ++ pre2, ?_, ?_⟩
        · rw [hpreg, hpre2, ← heq1, List.append_assoc]
        · rw [← heq2]; exact Accepts.optY haccg hacc2
      · obtain ⟨pre, hpre, hacc⟩ := ih ts s r caps h
        exact ⟨pre, hpre, Accepts.optN hacc⟩

/-- Token lists built only from literals and repetitions (no groups). -/
def flatToks (ts : List Tok) : Bool :=
  ts.all (fun t =>
    match t with
    | Tok.lit _ => true
    | Tok.rep _ _ _ => true
    | _ => false)

theorem Accepts.flat_caps {ts : List Tok} {cs : List Char} {caps : Captures}
    (h : Accepts ts cs caps) (hflat : flatToks ts = true) : caps = [] := by
  induction h with
  | nil => rfl
  | lit _ ih =>
    simp only [flatToks, List.all_cons, Bool.and_eq_true] at hflat
    exact ih hflat.2
  | rep _ _ _ _ ih =>
    simp only [flatToks, List.all_cons, Bool.and_eq_true] at hflat
    exact ih hflat.2
  | grp _ _ _ _ => simp [flatToks] at hflat
  | optY _ _ _ _ => simp [flatToks] at hflat
  | optN _ _ => simp [flatToks] at hflat

theorem Accepts.lits_inv {l : List Char} {rest : List Tok} {cs : List Char}
    {caps : Captures} (h : Accepts (l.map Tok.lit ++ rest) cs caps) :
    ∃ cs', cs = l ++ cs' ∧ Accepts rest cs' caps := by
  induction l generalizing cs with
  | nil => exact ⟨cs, by simp, by simpa using h⟩
  | cons c l ih =>
    simp only [List.map_cons, List.cons_append] at h
    cases h with
    | lit h2 =>
      obtain ⟨cs', hcs', hacc⟩ := ih h2
      exact ⟨cs', by simp [hcs'], hacc⟩

def DigitStr (cs : List Char) : Prop :=
  cs ≠ [] ∧ ∀ x ∈ cs, isDigitCh x = true

/-- The shape matched by `\\d+\\.\\d+\\.\\d+\\.\\d+`. -/
def QuadShape (cs : List Char) : Prop :=
  ∃ a b c d, DigitStr a ∧ DigitStr b ∧ DigitStr c ∧ DigitStr d ∧
    cs = a ++ '.' :: (b ++ '.' :: (c ++ '.' :: d))

theorem Accepts.digit_rep_inv {lo : Nat} {ts : List Tok} {cs : List Char}
    {caps : Captures} (h : Accepts (Tok.rep .digit lo none :: ts) cs caps) :
    ∃ t cs', cs = t ++ cs' ∧ lo ≤ t.length ∧ (∀ x ∈ t, isDigitCh x = true) ∧
      Accepts ts cs' caps := by
  cases h with
  | rep ha hlo _ h2 =>
    exact ⟨_, _, rfl, hlo, fun x hx => by simpa [matchCls] using ha x hx, h2⟩

theorem Accepts.lit_inv {c : Char} {ts : List Tok} {cs : List Char}
    {caps : Captures} (h : Accepts (Tok.lit c :: ts) cs caps) :
    ∃ cs', cs = c :: cs' ∧ Accepts ts cs' caps := by
  cases h with
  | lit h2 => exact ⟨_, rfl, h2⟩

theorem Accepts.nil_inv {cs : List Char} {caps : Captures}
    (h : Accepts [] cs caps) : cs = [] ∧ caps = [] := by
  cases h
  exact ⟨rfl, rfl⟩

theorem Accepts.grp_inv {n : Nat} {g ts : List Tok} {cs : List Char}
    {caps : Captures} (h : Accepts (Tok.grp n g :: ts) cs caps) :
    ∃ gc gcaps cs' caps', cs = gc ++ cs' ∧ caps = gcaps ++ (n, gc) :: caps' ∧
      Accepts g gc gcaps ∧ Accepts ts cs' caps' := by
  cases h with
  | grp h1 h2 => exact ⟨_, _, _, _, rfl, rfl, h1, h2⟩

theorem Accepts.quad_shape {cs : List Char} {caps : Captures}
    (h : Accepts quadPat cs caps) : QuadShape cs := by
  obtain ⟨t1, c1, he1, hl1, hd1, h⟩ := h.digit_rep_inv
  obtain ⟨c2, he2, h⟩ := h.lit_inv
  obtain ⟨t2, c3, he3, hl2, hd2, h⟩ := h.digit_rep_inv
  obtain ⟨c4, he4, h⟩ := h.lit_inv
  obtain ⟨t3, c5, he5, hl3, hd3, h⟩ := h.digit_rep_inv
  obtain ⟨c6, he6, h⟩ := h.lit_inv
  obtain ⟨t4, c7, he7, hl4, hd4, h⟩ := h.digit_rep_inv
  obtain ⟨he8, -⟩ := h.nil_inv
  refine ⟨t1, t2, t3, t4, ⟨?_, hd1⟩, ⟨?_, hd2⟩, ⟨?_, hd3⟩, ⟨?_, hd4⟩, ?_⟩
  · intro hnil; rw [hnil] at hl1; simp at hl1
  · intro hnil; rw [hnil] at hl2; simp at hl2
  · intro hnil; rw [hnil] at hl3; simp at hl3
  · intro hnil; rw [hnil] at hl4; simp at hl4
  · subst he8 he7 he6 he5 he4 he3 he2
    simpa using he1

theorem Accepts.rep_inv {c : CClass} {lo : Nat} {hi : Option Nat}
    {ts : List Tok} {cs : List Char} {caps : Captures}
    (h : Accepts (Tok.rep c lo hi :: ts) cs caps) :
    ∃ t cs', cs = t ++ cs' ∧ Accepts ts cs' caps := by
  cases h with
  | rep _ _ _ h2 => exact ⟨_, _, rfl, h2⟩

/-- The capture list of any match of a `parse_log_line` pattern: exactly the
three groups, the third quad-shaped. -/
theorem banPat_caps {kw : String} {cs : List Char} {caps : Captures}
    (h : Accepts (banPat kw) cs caps) :
    ∃ t j q, caps = [(1, t), (2, j), (3, q)] ∧ QuadShape q := by
  obtain ⟨gc1, gcaps1, cs1, caps1, -, hcaps, hg1, h⟩ := h.grp_inv
  have hts : gcaps1 = [] := hg1.flat_caps (by decide)
  obtain ⟨t0, cs2, -, h⟩ := h.rep_inv
  obtain ⟨cs3, -, h⟩ := h.lit_inv
  obtain ⟨gc2, gcaps2, cs4, caps2, -, hcaps1, hg2, h⟩ := h.grp_inv
  have hw : gcaps2 = [] := hg2.flat_caps (by decide)
  obtain ⟨cs5, -, h⟩ := @Accepts.lits_inv (String.data ("] " ++ kw ++ " ")) _ _ _ h
  obtain ⟨gc3, gcaps3, cs6, caps3, -, hcaps2, hg3, h⟩ := h.grp_inv
  have hq : gcaps3 = [] := hg3.flat_caps (by decide)
  obtain ⟨-, hcaps3⟩ := h.nil_inv
  subst hts hw hq hcaps3 hcaps2 hcaps1 hcaps
  exact ⟨gc1, gc2, gc3, by simp, hg3.quad_shape⟩

theorem searchAux_sound {p : List Tok} {caps : Captures} :
    ∀ {s : List Char}, searchAux p s = some caps →
      ∃ u r, (r, caps) ∈ matchToks p u := by
  intro s
  induction s with
  | nil =>
    intro h
    simp only [searchAux] at h
    cases hm : matchToks p [] with
    | nil => rw [hm] at h; simp at h
    | cons q l =>
      rw [hm] at h
      simp only [Option.some.injEq] at h
      exact ⟨[], q.1, by rw [hm, ← h]; simp⟩
  | cons c cs ih =>
    intro h
    simp only [searchAux] at h
    cases hm : matchToks p (c :: cs) with
    | nil => rw [hm] at h; exact ih h
    | cons q l =>
      rw [hm] at h
      simp only [Option.some.injEq] at h
      exact ⟨c :: cs, q.1, by rw [hm, ← h]; simp⟩

theorem reSearch_banPat_caps {kw : String} {s : List Char} {caps : Captures}
    (h : reSearch (banPat kw) s = some caps) :
    ∃ t j q, caps = [(1, t), (2, j), (3, q)] ∧ QuadShape q := by
  obtain ⟨u, r, hmem⟩ := searchAux_sound h
  obtain ⟨pre, -, hacc⟩ := matchToksF_sound _ _ _ _ _ hmem
  exact banPat_caps hacc


theorem group_three {t j q : List Char} : group [(1, t), (2, j), (3, q)] 3 = q := by
  simp [group, List.find?]

/-- Whenever `parse_log_line` returns an entry, its `ip` field has the
digits-and-dots shape of `\\d+\\.\\d+\\.\\d+\\.\\d+` (which is weaker than
being a valid address: no range check is performed). -/
theorem parse_log_line_ip_shape {line : String} {e : LogEntry}
    (h : parse_log_line line = some e) : QuadShape e.ip := by
  unfold parse_log_line at h
  cases h1 : reSearch (banPat "BAN") line.data with
  | some caps =>
    rw [h1] at h
    obtain ⟨t, j, q, hc, hq⟩ := reSearch_banPat_caps h1
    cases h
    subst hc
    simpa [group_three] using hq
  | none =>
    rw [h1] at h
    cases h2 : reSearch (banPat "UNBAN") line.data with
    | some caps =>
      rw [h2] at h
      obtain ⟨t, j, q, hc, hq⟩ := reSearch_banPat_caps h2
      cases h
      subst hc
      simpa [group_three] using hq
    | none =>
      rw [h2] at h
      cases h3 : reSearch (banPat "Found") line.data with
      | some caps =>
        rw [h3] at h
        obtain ⟨t, j, q, hc, hq⟩ := reSearch_banPat_caps h3
        cases h
        subst hc
        simpa [group_three] using hq
      | none => rw [h3] at h; exact absurd h (by simp)

/-! ## Default-preservation lemmas for `get_jail_status` (C9) -/

theorem foldl_field_const {α β γ : Type} (f : α → β → α) (proj : α → γ)
    (l : List β) (init : α) (h : ∀ a b, b ∈ l → proj (f a b) = proj a) :
    proj (l.foldl f init) = proj init := by
  induction l generalizing init with
  | nil => rfl
  | cons b bs ih =>
    rw [List.foldl_cons, ih]
    · exact h init b (by simp)
    · intro a b' hb'
      exact h a b' (by simp [hb'])

theorem updateLine_currently_failed (st : JailStatus) (l : List Char)
    (h : containsSub (pyStrip l) ("Currently failed:".data) = true →
      searchInt (pyStrip l) = none) :
    (updateLine st l).currently_failed = st.currently_failed := by
  unfold updateLine
  dsimp only
  split_ifs <;>
    first
      | rfl
      | (rw [h (by assumption)])
      | (cases hsi : searchInt (pyStrip l) <;> rfl)

theorem updateLine_total_failed (st : JailStatus) (l : List Char)
    (h : containsSub (pyStrip l) ("Total failed:".data) = true →
      searchInt (pyStrip l) = none) :
    (updateLine st l).total_failed = st.total_failed := by
  unfold updateLine
  dsimp only
  split_ifs <;>
    first
      | rfl
      | (rw [h (by assumption)])
      | (cases hsi : searchInt (pyStrip l) <;> rfl)

theorem updateLine_currently_banned (st : JailStatus) (l : List Char)
    (h : containsSub (pyStrip l) ("Currently banned:".data) = true →
      searchInt (pyStrip l) = none) :
    (updateLine st l).currently_banned = st.currently_banned := by
  unfold updateLine
  dsimp only
  split_ifs <;>
    first
      | rfl
      | (rw [h (by assumption)])
      | (cases hsi : searchInt (pyStrip l) <;> rfl)

theorem updateLine_total_banned (st : JailStatus) (l : List Char)
    (h : containsSub (pyStrip l) ("Total banned:".data) = true →
      searchInt (pyStrip l) = none) :
    (updateLine st l).total_banned = st.total_banned := by
  unfold updateLine
  dsimp only
  split_ifs <;>
    first
      | rfl
      | (rw [h (by assumption)])
      | (cases hsi : searchInt (pyStrip l) <;> rfl)

theorem updateLine_filter (st : JailStatus) (l : List Char)
    (h : (containsSub (pyStrip l) ("Filter".data) && containsSub (pyStrip l) (":".data)) = false) :
    (updateLine st l).filter = st.filter := by
  unfold updateLine
  dsimp only
  split_ifs <;>
    first
      | rfl
      | (cases hsi : searchInt (pyStrip l) <;> rfl)
      | simp_all

theorem updateLine_actions (st : JailStatus) (l : List Char)
    (h : (containsSub (pyStrip l) ("Actions".data) && containsSub (pyStrip l) (":".data)) = false) :
    (updateLine st l).actions = st.actions := by
  unfold updateLine
  dsimp only
  split_ifs <;>
    first
      | rfl
      | (cases hsi : searchInt (pyStrip l) <;> rfl)
      | simp_all

theorem updateLine_banned_ips (st : JailStatus) (l : List Char)
    (h : containsSub (pyStrip l) ("Banned IP list:".data) = false) :
    (updateLine st l).banned_ips = st.banned_ips := by
  unfold updateLine
  dsimp only
  split_ifs <;>
    first
      | rfl
      | (cases hsi : searchInt (pyStrip l) <;> rfl)
      | simp_all

theorem jail_parse_currently_failed (name : String) (out : List Char)
    (h : ∀ l ∈ splitCh '\n' out,
      containsSub (pyStrip l) ("Currently failed:".data) = true →
      searchInt (pyStrip l) = none) :
    (get_jail_status_parse name out).currently_failed = 0 := by
  unfold get_jail_status_parse
  rw [foldl_field_const updateLine (fun s => s.currently_failed) _ _
    (fun a b hb => updateLine_currently_failed a b (h b hb))]
  rfl

theorem jail_parse_total_failed (name : String) (out : List Char)
    (h : ∀ l ∈ splitCh '\n' out,
      containsSub (pyStrip l) ("Total failed:".data) = true →
      searchInt (pyStrip l) = none) :
    (get_jail_status_parse name out).total_failed = 0 := by
  unfold get_jail_status_parse
  rw [foldl_field_const updateLine (fun s => s.total_failed) _ _
    (fun a b hb => updateLine_total_failed a b (h b hb))]
  rfl

theorem jail_parse_currently_banned (name : String) (out : List Char)
    (h : ∀ l ∈ splitCh '\n' out,
      containsSub (pyStrip l) ("Currently banned:".data) = true →
      searchInt (pyStrip l) = none) :
    (get_jail_status_parse name out).currently_banned = 0 := by
  unfold get_jail_status_parse
  rw [foldl_field_const updateLine (fun s => s.currently_banned) _ _
    (fun a b hb => updateLine_currently_banned a b (h b hb))]
  rfl

theorem jail_parse_total_banned (name : String) (out : List Char)
    (h : ∀ l ∈ splitCh '\n' out,
      containsSub (pyStrip l) ("Total banned:".data) = true →
      searchInt (pyStrip l) = none) :
    (get_jail_status_parse name out).total_banned = 0 := by
  unfold get_jail_status_parse
  rw [foldl_field_const updateLine (fun s => s.total_banned) _ _
    (fun a b hb => updateLine_total_banned a b (h b hb))]
  rfl

theorem jail_parse_filter (name : String) (out : List Char)
    (h : ∀ l ∈ splitCh '\n' out, (containsSub (pyStrip l) ("Filter".data) && containsSub (pyStrip l) (":".data)) = false) :
    (get_jail_status_parse name out).filter = [] := by
  unfold get_jail_status_parse
  rw [foldl_field_const updateLine (fun s => s.filter) _ _
    (fun a b hb => updateLine_filter a b (h b hb))]
  rfl

theorem jail_parse_actions (name : String) (out : List Char)
    (h : ∀ l ∈ splitCh '\n' out, (containsSub (pyStrip l) ("Actions".data) && containsSub (pyStrip l) (":".data)) = false) :
    (get_jail_status_parse name out).actions = [] := by
  unfold get_jail_status_parse
  rw [foldl_field_const updateLine (fun s => s.actions) _ _
    (fun a b hb => updateLine_actions a b (h b hb))]
  rfl

theorem jail_parse_banned_ips (name : String) (out : List Char)
    (h : ∀ l ∈ splitCh '\n' out, containsSub (pyStrip l) ("Banned IP list:".data) = false) :
    (get_jail_status_parse name out).banned_ips = [] := by
  unfold get_jail_status_parse
  rw [foldl_field_const updateLine (fun s => s.banned_ips) _ _
    (fun a b hb => updateLine_banned_ips a b (h b hb))]
  rfl

/-! ## Private-address short-circuit lemmas for `get_ip_geolocation` (C8) -/

theorem is_private_valid {s : String} (hp : is_private s.data = true) :
    validate_ip_address s = true := by
  unfold is_private at hp
  unfold validate_ip_address ipv4Ok ipv6Ok
  cases h4 : ipv4Val s.data with
  | some v => simp [h4]
  | none =>
    rw [h4] at hp
    cases h6 : ipv6Val s.data with
    | some v => simp [h4, h6]
    | none => rw [h6] at hp; simp at hp

theorem geoFetch_private (net : Option ApiResp) (now : Nat) (cache : GeoCache)
    (ip : String) (hp : is_private ip.data = true) :
    geoFetch net now cache ip = (localGeo, cacheInsert cache ip localGeo now, false) := by
  unfold geoFetch
  rw [if_pos hp]

theorem geo_private (net : Option ApiResp) (now : Nat) (cache : GeoCache)
    (ip : String) (hp : is_private ip.data = true) :
    (get_ip_geolocation net now cache ip).2.2 = false ∧
    (cacheLookup cache ip = none →
      (get_ip_geolocation net now cache ip).1 = localGeo) := by
  have hv := is_private_valid hp
  unfold get_ip_geolocation
  simp only [hv, if_true]
  cases hl : cacheLookup cache ip with
  | some p =>
    dsimp only
    constructor
    · split
      · rfl
      · rw [geoFetch_private net now cache ip hp]
    · intro hnone
      simp at hnone
  | none =>
    dsimp only
    rw [geoFetch_private net now cache ip hp]
    exact ⟨rfl, fun _ => rfl⟩

/-! ## Command-trace lemmas for the mutation operations (C1, C2, C4) -/

/-- An oracle whose every command succeeds. -/
def exAll : Exec := fun _ => ⟨true, "", ""⟩

/-- For any valid ip, `ban_ip_with_time` always issues exactly two commands:
a jail-wide `bantime` set to the duration (forwarded verbatim, `-1` and `0`
included), then a `banip`. -/
theorem ban_ip_with_time_cmds (ex : Exec) (jail ip : String) (t : Int)
    (hv : validate_ip_address ip = true) :
    (ban_ip_with_time ex jail ip t).2 =
      [[FAIL2BAN_CLIENT_PATH, "set", sanitize_input jail, "bantime", intStr t],
       [FAIL2BAN_CLIENT_PATH, "set", sanitize_input jail, "banip", sanitize_input ip]] := by
  unfold ban_ip_with_time
  simp only [hv, if_true]
  by_cases ht : t = -1
  · subst ht
    rw [if_pos rfl]
    split <;> rfl
  · rw [if_neg ht]
    split <;> rfl

theorem mutation_invalid_ip (ex : Exec) (jail ip : String) (t : Int)
    (hv : validate_ip_address ip = false) :
    ban_ip ex jail ip = ((false, "Invalid IP address format"), []) ∧
    ban_ip_with_time ex jail ip t = ((false, "Invalid IP address format"), []) ∧
    unban_ip ex jail ip = ((false, "Invalid IP address format"), []) := by
  unfold ban_ip ban_ip_with_time unban_ip
  simp [hv]

/-! ## The claims -/

/-- C1: refuted in the code (code bug): `ban_ip_with_time(jail, ip, 60)`
issues `fail2ban-client set <jail> bantime 60`, which mutates the jail's
global bantime configuration — the requested duration is not confined to
the one (jail, ip) ban record.  Concretely: with the jail's bantime at
"600", banning one IP for 60 seconds leaves the jail's bantime at "60". -/
theorem C1_ban_with_time_mutates_jail_bantime :
    (applyCmds ⟨fun _ => "600"⟩
      (ban_ip_with_time exAll "sshd" "1.2.3.4" 60).2).bantime "sshd" = "60" ∧
    ("600" : String) ≠ "60" := by
  exact ⟨rfl, by decide⟩

/-- C2 (amended): `ban_ip_with_time` does not implement the three-way
sentinel: the duration is forwarded verbatim as a jail-wide `bantime`
setting and a `banip` is always issued — duration 0 is not special-cased
into an unban / no-ban. -/
theorem C2_duration_forwarded_verbatim (ex : Exec) (jail ip : String) (t : Int)
    (hv : validate_ip_address ip = true) :
    (ban_ip_with_time ex jail ip t).2 =
      [[FAIL2BAN_CLIENT_PATH, "set", sanitize_input jail, "bantime", intStr t],
       [FAIL2BAN_CLIENT_PATH, "set", sanitize_input jail, "banip", sanitize_input ip]] :=
  ban_ip_with_time_cmds ex jail ip t hv

theorem C2_duration_forwarded_verbatim_witness :
    (ban_ip_with_time exAll "sshd" "1.2.3.4" 0).2 =
      [[FAIL2BAN_CLIENT_PATH, "set", sanitize_input "sshd", "bantime", intStr 0],
       [FAIL2BAN_CLIENT_PATH, "set", sanitize_input "sshd", "banip",
        sanitize_input "1.2.3.4"]] :=
  C2_duration_forwarded_verbatim exAll "sshd" "1.2.3.4" 0 (by decide)

/-- C2 counterexample: with duration 0 the code still issues a `banip`
command (after setting the jail bantime to "0"), instead of performing an
immediate unban / creating no ban. -/
theorem C2_zero_duration_still_bans :
    (ban_ip_with_time exAll "sshd" "1.2.3.4" 0).2 =
      [["/usr/bin/fail2ban-client", "set", "sshd", "bantime", "0"],
       ["/usr/bin/fail2ban-client", "set", "sshd", "banip", "1.2.3.4"]] ∧
    (ban_ip_with_time exAll "sshd" "1.2.3.4" 0).1.1 = true := by
  exact ⟨rfl, rfl⟩

/-- C3 (amended): whenever `parse_log_line` returns an event, its `ip`
field matches the digits-and-dots shape `\d+\.\d+\.\d+\.\d+`; no validity
check is performed, so the ip need not be a valid address (see the
counterexample). -/
theorem C3_parsed_ip_quad_shape {line : String} {e : LogEntry}
    (h : parse_log_line line = some e) : QuadShape e.ip :=
  parse_log_line_ip_shape h

set_option maxRecDepth 10000 in
theorem C3_parsed_ip_quad_shape_witness :
    QuadShape (LogEntry.mk ("2024-01-01 10:00:00,000".data) ("sshd".data)
      ("1.2.3.4".data) "ban"
      "2024-01-01 10:00:00,000 fail2ban.actions [sshd] BAN 1.2.3.4").ip :=
  @C3_parsed_ip_quad_shape
    "2024-01-01 10:00:00,000 fail2ban.actions [sshd] BAN 1.2.3.4"
    (LogEntry.mk ("2024-01-01 10:00:00,000".data) ("sshd".data)
      ("1.2.3.4".data) "ban"
      "2024-01-01 10:00:00,000 fail2ban.actions [sshd] BAN 1.2.3.4")
    (by decide)

set_option maxRecDepth 10000 in
/-- C3 counterexample: a line whose matched IP text is not a valid address
is not skipped — `parse_log_line` returns the event with the invalid
address in its `ip` field. -/
theorem C3_invalid_ip_not_dropped :
    (parse_log_line
        "2024-01-01 10:00:00,000 fail2ban.actions [sshd] BAN 999.999.999.999").map
      (fun e => e.ip) = some ("999.999.999.999".data) ∧
    validate_ip_address "999.999.999.999" = false := by
  exact ⟨by decide, by decide⟩

/-- C4: for every invalid ip string, the three mutation operations return
`success = False` with the invalid-IP message and issue no enforcement
command at all. -/
theorem C4_invalid_ip_rejected_no_command (ex : Exec) (jail ip : String) (t : Int)
    (hv : validate_ip_address ip = false) :
    ban_ip ex jail ip = ((false, "Invalid IP address format"), []) ∧
    ban_ip_with_time ex jail ip t = ((false, "Invalid IP address format"), []) ∧
    unban_ip ex jail ip = ((false, "Invalid IP address format"), []) :=
  mutation_invalid_ip ex jail ip t hv

theorem C4_invalid_ip_rejected_no_command_witness :
    ban_ip exAll "sshd" "1.2.3" = ((false, "Invalid IP address format"), []) ∧
    ban_ip_with_time exAll "sshd" "1.2.3" 5 =
      ((false, "Invalid IP address format"), []) ∧
    unban_ip exAll "sshd" "1.2.3" = ((false, "Invalid IP address format"), []) :=
  C4_invalid_ip_rejected_no_command exAll "sshd" "1.2.3" 5 (by decide)

/-- C5: `validate_ip_address` accepts exactly the strings of the IPv4 /
IPv6 address grammars; every other string — in particular any string
containing a shell metacharacter — is rejected. -/
theorem C5_validate_ip_address_correct (s : String) :
    validate_ip_address s = true ↔ SpecIPv4 s.data ∨ SpecIPv6 s.data :=
  validate_iff_spec s

set_option maxRecDepth 10000 in
/-- C6: the synthetic ban-log line parses to `{action: ban, jail: sshd,
ip: 1.2.3.4}`, and the same line with `UNBAN` parses to `{action: unban}`
for the same jail and ip. -/
theorem C6_ban_log_round_trip :
    parse_log_line "2024-01-01 10:00:00,000 fail2ban.actions [sshd] BAN 1.2.3.4" =
      some ⟨"2024-01-01 10:00:00,000".data, "sshd".data, "1.2.3.4".data, "ban",
        "2024-01-01 10:00:00,000 fail2ban.actions [sshd] BAN 1.2.3.4"⟩ ∧
    parse_log_line "2024-01-01 10:00:00,000 fail2ban.actions [sshd] UNBAN 1.2.3.4" =
      some ⟨"2024-01-01 10:00:00,000".data, "sshd".data, "1.2.3.4".data, "unban",
        "2024-01-01 10:00:00,000 fail2ban.actions [sshd] UNBAN 1.2.3.4"⟩ := by
  exact ⟨by decide, by decide⟩

set_option maxRecDepth 10000 in
/-- C7: the auth-log line parses to `{action: failed_password, user:
admin, ip: 10.0.0.5}` (with the failure_type annotation), and the same
line with the malformed ip `10.0.0` yields no event. -/
theorem C7_ssh_log_parse :
    parse_ssh_log_line
        "Jan 5 10:00:00 host sshd[123]: Failed password for invalid user admin from 10.0.0.5 port 22" =
      some ⟨"Jan 5 10:00:00".data, "admin".data, "10.0.0.5".data,
        "failed_password", some "Mot de passe incorrect",
        "Jan 5 10:00:00 host sshd[123]: Failed password for invalid user admin from 10.0.0.5 port 22"⟩ ∧
    parse_ssh_log_line
        "Jan 5 10:00:00 host sshd[123]: Failed password for invalid user admin from 10.0.0 port 22" =
      none := by
  exact ⟨by decide, by decide⟩

/-- C8: for every private address, `get_ip_geolocation` performs no
outbound call, and (unless the cache already holds an entry for it) it
returns the fixed local-network sentinel. -/
theorem C8_private_ip_no_network (net : Option ApiResp) (now : Nat)
    (cache : GeoCache) (ip : String) (hp : is_private ip.data = true) :
    (get_ip_geolocation net now cache ip).2.2 = false ∧
    (cacheLookup cache ip = none →
      (get_ip_geolocation net now cache ip).1 = localGeo) :=
  geo_private net now cache ip hp

theorem C8_private_ip_no_network_witness :
    (get_ip_geolocation none 0 [] "192.168.1.1").2.2 = false ∧
    (cacheLookup [] "192.168.1.1" = none →
      (get_ip_geolocation none 0 [] "192.168.1.1").1 = localGeo) :=
  C8_private_ip_no_network none 0 [] "192.168.1.1" (by decide)

/-- C9: `get_jail_status` parsing is total and tolerant: for any status
text, any counter whose label is absent or whose line holds no digits
stays 0, an absent filter stays empty, and absent actions / banned-IP
lists stay empty. -/
theorem C9_jail_status_parse_defaults (name : String) (out : List Char) :
    ((∀ l ∈ splitCh '\n' out,
        containsSub (pyStrip l) ("Currently failed:".data) = true →
        searchInt (pyStrip l) = none) →
      (get_jail_status_parse name out).currently_failed = 0) ∧
    ((∀ l ∈ splitCh '\n' out,
        containsSub (pyStrip l) ("Total failed:".data) = true →
        searchInt (pyStrip l) = none) →
      (get_jail_status_parse name out).total_failed = 0) ∧
    ((∀ l ∈ splitCh '\n' out,
        containsSub (pyStrip l) ("Currently banned:".data) = true →
        searchInt (pyStrip l) = none) →
      (get_jail_status_parse name out).currently_banned = 0) ∧
    ((∀ l ∈ splitCh '\n' out,
        containsSub (pyStrip l) ("Total banned:".data) = true →
        searchInt (pyStrip l) = none) →
      (get_jail_status_parse name out).total_banned = 0) ∧
    ((∀ l ∈ splitCh '\n' out,
        (containsSub (pyStrip l) ("Filter".data) &&
          containsSub (pyStrip l) (":".data)) = false) →
      (get_jail_status_parse name out).filter = []) ∧
    ((∀ l ∈ splitCh '\n' out,
        (containsSub (pyStrip l) ("Actions".data) &&
          containsSub (pyStrip l) (":".data)) = false) →
      (get_jail_status_parse name out).actions = []) ∧
    ((∀ l ∈ splitCh '\n' out,
        containsSub (pyStrip l) ("Banned IP list:".data) = false) →
      (get_jail_status_parse name out).banned_ips = []) :=
  ⟨jail_parse_currently_failed name out, jail_parse_total_failed name out,
   jail_parse_currently_banned name out, jail_parse_total_banned name out,
   jail_parse_filter name out, jail_parse_actions name out,
   jail_parse_banned_ips name out⟩

/-- A status output with no parsable fields, for the C9 witness. -/
def statusOut : List Char := "Status for jail sshd\nCurrently failed: none".data

theorem C9_jail_status_parse_defaults_witness :
    (get_jail_status_parse "sshd" statusOut).currently_failed = 0 ∧
    (get_jail_status_parse "sshd" statusOut).total_failed = 0 ∧
    (get_jail_status_parse "sshd" statusOut).currently_banned = 0 ∧
    (get_jail_status_parse "sshd" statusOut).total_banned = 0 ∧
    (get_jail_status_parse "sshd" statusOut).filter = [] ∧
    (get_jail_status_parse "sshd" statusOut).actions = [] ∧
    (get_jail_status_parse "sshd" statusOut).banned_ips = [] :=
  ⟨(C9_jail_status_parse_defaults "sshd" statusOut).1 (by decide),
   (C9_jail_status_parse_defaults "sshd" statusOut).2.1 (by decide),
   (C9_jail_status_parse_defaults "sshd" statusOut).2.2.1 (by decide),
   (C9_jail_status_parse_defaults "sshd" statusOut).2.2.2.1 (by decide),
   (C9_jail_status_parse_defaults "sshd" statusOut).2.2.2.2.1 (by decide),
   (C9_jail_status_parse_defaults "sshd" statusOut).2.2.2.2.2.1 (by decide),
   (C9_jail_status_parse_defaults "sshd" statusOut).2.2.2.2.2.2 (by decide)⟩

/-- C10: `sanitize_input` is idempotent; its output holds no deny-list
character and no leading or trailing whitespace. -/
theorem C10_sanitize_input_idempotent (s : String) :
    sanitize_input (sanitize_input s) = sanitize_input s ∧
    (∀ c ∈ dangerous_chars, c ∉ (sanitize_input s).data) ∧
    (∀ c, ((sanitize_input s).data.head? = some c → isSpaceCh c = false) ∧
      ((sanitize_input s).data.getLast? = some c → isSpaceCh c = false)) := by
  have hdata : ∀ l : List Char, (String.mk l).data = l := fun l => rfl
  unfold sanitize_input
  rw [hdata]
  refine ⟨?_, ?_, ?_⟩
  · rw [sanitizeL_idem]
  · exact fun c hc => sanitizeL_no_dangerous s.data c hc
  · exact fun c => ⟨fun h => sanitizeL_head_not_space s.data h,
      fun h => sanitizeL_last_not_space s.data h⟩

end Fail2Shield
